import Mathlib

/-!
# number_speller: a shallow embedding of `number_speller.cpp`

Speller nodes live in a heap (a list of nodes in construction order); a
`SpellerPtr` is the address of a node in that heap, so that node identity is
address equality exactly as for `std::shared_ptr<ISpeller>` keys of the
substitution map.  `doSpell` is the virtual call `ISpeller::doSpell`; it takes
a recursion budget (`fuel`) and answers `none` when the budget is exhausted,
when a pointer does not address a node, or when a split divides by zero.
-/

namespace NumberSpeller

/-- A `std::shared_ptr<ISpeller>`: the address of a node in the heap. -/
abbrev SpellerPtr := Nat

/-- The `std::map<SpellerPtr, SpellerPtr>` of a `SpellerInput`, as the lookup
it supports: `find` of a key gives the mapped pointer or nothing. -/
abbrev SpellerPtrMap := SpellerPtr → Option SpellerPtr

/-- The default-constructed (empty) substitution map. -/
def SpellerPtrMap.empty : SpellerPtrMap := fun _ => none

/-- The assignment `m[from] = to` of `std::map`: inserts or replaces. -/
def SpellerPtrMap.assign (m : SpellerPtrMap) (m_from m_to : SpellerPtr) : SpellerPtrMap :=
  fun k => if k = m_from then some m_to else m k

/-- Two to the 64: the modulus of `unsigned long long` arithmetic. -/
def ULLONG_MOD : Nat := 2 ^ 64

/-- The class `SpellerInput`: magnitude, sign flag and substitution map. -/
structure SpellerInput where
  m_number : Nat
  m_negative : Bool
  m_substitutes : SpellerPtrMap

/-- The wrap of a mathematical integer into the range of a 32-bit `int`. -/
def wrapInt32 (x : Int) : Int := (x + 2 ^ 31) % 2 ^ 32 - 2 ^ 31

/-- The library `abs` on `int`: the negation is computed in `int`, so it wraps
on the most negative value (two's complement behaviour of the overflow). -/
def abs (number : Int) : Int := wrapInt32 (if number < 0 then -number else number)

/-- The conversion of an `int` to `unsigned long long` (value modulo 2^64). -/
def toULL (x : Int) : Nat := (x % (ULLONG_MOD : Int)).toNat

/-- The constructor `SpellerInput(int number)`. -/
def SpellerInput.ofInt (number : Int) : SpellerInput :=
  { m_number := toULL (abs number), m_negative := decide (number < 0),
    m_substitutes := SpellerPtrMap.empty }

/-- The constructor `SpellerInput(unsigned long long number)`. -/
def SpellerInput.ofULL (number : Nat) : SpellerInput :=
  { m_number := number, m_negative := false, m_substitutes := SpellerPtrMap.empty }

/-- The loop `for (int i = 0; i < pos; ++i) divider *= 10;` run `n` times on an
`unsigned long long`. -/
def dividerLoop : Nat → Nat → Nat
  | 0, divider => divider
  | n + 1, divider => dividerLoop n (divider * 10 % ULLONG_MOD)

/-- The divider that `left` and `right` compute for `pos` (an `int`; the loop
body does not run when `pos` is not positive). -/
def divider (pos : Int) : Nat := dividerLoop pos.toNat 1

/-- The method `SpellerInput::left`; `none` is the division by zero. -/
def SpellerInput.left (input : SpellerInput) (pos : Int) : Option SpellerInput :=
  if divider pos = 0 then none
  else some { input with m_number := input.m_number / divider pos }

/-- The method `SpellerInput::right`; `none` is the modulo by zero. -/
def SpellerInput.right (input : SpellerInput) (pos : Int) : Option SpellerInput :=
  if divider pos = 0 then none
  else some { input with m_number := input.m_number % divider pos }

/-- The method `SpellerInput::addSubstitute`. -/
def SpellerInput.addSubstitute (input : SpellerInput) (m_from m_to : SpellerPtr) :
    SpellerInput :=
  { input with m_substitutes := input.m_substitutes.assign m_from m_to }

/-- The method `SpellerInput::isLessEqual`. -/
def SpellerInput.isLessEqual (input : SpellerInput) (threshold : Nat) : Bool :=
  decide (input.m_number ≤ threshold)

/-- The method `SpellerInput::isNegative`. -/
def SpellerInput.isNegative (input : SpellerInput) : Bool := input.m_negative

/-- The classes derived from `ISpeller`, with their data members. -/
inductive ISpeller where
  | NullSpeller
  | StringSpeller (m_value : String)
  | SubstituteSpeller (m_from m_to m_what : SpellerPtr)
  | SelectionSpeller (m_threshold : Nat) (m_lower m_higher : SpellerPtr)
  | SignSpeller (m_higher m_lower : SpellerPtr)
  | SequentialSpeller (m_first m_second : SpellerPtr)
  | PositionSplitSpeller (m_position : Int) (m_right m_left : SpellerPtr)
      (m_inverseOrder : Bool)
  deriving DecidableEq, Repr

/-- The nodes allocated so far, in allocation order; a pointer is an index. -/
abbrev Heap := List ISpeller

/-- The allocation `make_shared<T>(...)`: the new node gets a fresh address. -/
def make_shared (node : ISpeller) : StateM Heap SpellerPtr :=
  fun heap => (heap.length, heap ++ [node])

/-- The method `SpellerInput::spell`, given the virtual call `doSpell`. -/
def SpellerInput.spell (doSpell : SpellerPtr → SpellerInput → Option String)
    (input : SpellerInput) (speller : SpellerPtr) : Option String :=
  match input.m_substitutes speller with
  | none => doSpell speller input
  | some second => doSpell second input

/-- The virtual method `ISpeller::doSpell`, dispatched on the node that `self`
addresses. -/
def doSpell (heap : Heap) : Nat → SpellerPtr → SpellerInput → Option String
  | 0, _, _ => none
  | fuel + 1, self, input =>
    match heap[self]? with
    | none => none
    | some ISpeller.NullSpeller => some ""
    | some (ISpeller.StringSpeller m_value) => some (m_value ++ " ")
    | some (ISpeller.SubstituteSpeller m_from m_to m_what) =>
      (input.addSubstitute m_from m_to).spell (doSpell heap fuel) m_what
    | some (ISpeller.SelectionSpeller m_threshold m_lower m_higher) =>
      if input.isLessEqual m_threshold then input.spell (doSpell heap fuel) m_lower
      else input.spell (doSpell heap fuel) m_higher
    | some (ISpeller.SignSpeller m_higher m_lower) =>
      if input.isNegative then input.spell (doSpell heap fuel) m_lower
      else input.spell (doSpell heap fuel) m_higher
    | some (ISpeller.SequentialSpeller m_first m_second) =>
      match input.spell (doSpell heap fuel) m_first,
            input.spell (doSpell heap fuel) m_second with
      | some first, some second => some (first ++ second)
      | _, _ => none
    | some (ISpeller.PositionSplitSpeller m_position m_right m_left m_inverseOrder) =>
      match input.left m_position, input.right m_position with
      | some inputLeft, some inputRight =>
        match inputLeft.spell (doSpell heap fuel) m_left,
              inputRight.spell (doSpell heap fuel) m_right with
        | some left, some right =>
          some (if m_inverseOrder then right ++ left else left ++ right)
        | _, _ => none
      | _, _ => none

/-- The variadic template `select`: a chain of `SelectionSpeller` nodes, the
innermost allocated first; with no pair left it forwards the node given. -/
def select : List (Nat × SpellerPtr) → SpellerPtr → StateM Heap SpellerPtr
  | [], p => pure p
  | (threshold, p) :: xs, last => do
    let higher ← select xs last
    make_shared (ISpeller.SelectionSpeller threshold p higher)

/-- The named locals of `getEnglishSpeller`, each the pointer it holds. -/
structure EnglishLocals where
  mk ::
  unit : SpellerPtr
  units : SpellerPtr
  teens : SpellerPtr
  tens : SpellerPtr
  tensAndUnits : SpellerPtr
  hundreds : SpellerPtr
  triad : SpellerPtr
  thousands : SpellerPtr
  millions : SpellerPtr
  billions : SpellerPtr
  positive : SpellerPtr
  result : SpellerPtr
  deriving Repr, DecidableEq

/-- The body of `getEnglishSpeller`, keeping every local it declares. -/
def englishLocals : StateM Heap EnglishLocals := do
  let unit ← make_shared ISpeller.NullSpeller
  let units ← make_shared (ISpeller.SequentialSpeller (← select [
      (0, ← make_shared ISpeller.NullSpeller),
      (1, ← make_shared (ISpeller.StringSpeller "One")),
      (2, ← make_shared (ISpeller.StringSpeller "Two")),
      (3, ← make_shared (ISpeller.StringSpeller "Three")),
      (4, ← make_shared (ISpeller.StringSpeller "Four")),
      (5, ← make_shared (ISpeller.StringSpeller "Five")),
      (6, ← make_shared (ISpeller.StringSpeller "Six")),
      (7, ← make_shared (ISpeller.StringSpeller "Seven")),
      (8, ← make_shared (ISpeller.StringSpeller "Eight"))]
      (← make_shared (ISpeller.StringSpeller "Nine")))
    unit)
  let teens ← select [
      (10, ← make_shared (ISpeller.StringSpeller "Ten")),
      (11, ← make_shared (ISpeller.StringSpeller "Eleven")),
      (12, ← make_shared (ISpeller.StringSpeller "Twelve")),
      (13, ← make_shared (ISpeller.StringSpeller "Thirteen")),
      (14, ← make_shared (ISpeller.StringSpeller "Fourteen")),
      (15, ← make_shared (ISpeller.StringSpeller "Fifteen")),
      (16, ← make_shared (ISpeller.StringSpeller "Sixteen")),
      (17, ← make_shared (ISpeller.StringSpeller "Seventeen")),
      (18, ← make_shared (ISpeller.StringSpeller "Eighteen"))]
      (← make_shared (ISpeller.StringSpeller "Nineteen"))
  let tens ← select [
      (2, ← make_shared (ISpeller.StringSpeller "Twenty")),
      (3, ← make_shared (ISpeller.StringSpeller "Thirty")),
      (4, ← make_shared (ISpeller.StringSpeller "Forty")),
      (5, ← make_shared (ISpeller.StringSpeller "Fifty")),
      (6, ← make_shared (ISpeller.StringSpeller "Sixty")),
      (7, ← make_shared (ISpeller.StringSpeller "Seventy")),
      (8, ← make_shared (ISpeller.StringSpeller "Eighty"))]
      (← make_shared (ISpeller.StringSpeller "Ninety"))
  let tensAndUnits ← make_shared (ISpeller.SelectionSpeller 9 units
      (← make_shared (ISpeller.SelectionSpeller 19
        (← make_shared (ISpeller.SequentialSpeller teens unit))
        (← make_shared (ISpeller.PositionSplitSpeller 1 units tens false)))))
  let hundreds ← make_shared (ISpeller.SelectionSpeller 0
      (← make_shared ISpeller.NullSpeller)
      (← make_shared (ISpeller.SubstituteSpeller unit
        (← make_shared (ISpeller.StringSpeller "Hundred")) units)))
  let triad ← make_shared (ISpeller.PositionSplitSpeller 2 tensAndUnits hundreds false)
  let thousands ← make_shared (ISpeller.SelectionSpeller 0
      (← make_shared ISpeller.NullSpeller)
      (← make_shared (ISpeller.SubstituteSpeller unit
        (← make_shared (ISpeller.StringSpeller "Thousand")) triad)))
  let millions ← make_shared (ISpeller.SelectionSpeller 0
      (← make_shared ISpeller.NullSpeller)
      (← make_shared (ISpeller.SubstituteSpeller unit
        (← make_shared (ISpeller.StringSpeller "Million")) triad)))
  let billions ← make_shared (ISpeller.SelectionSpeller 0
      (← make_shared ISpeller.NullSpeller)
      (← make_shared (ISpeller.SubstituteSpeller unit
        (← make_shared (ISpeller.StringSpeller "Billion")) triad)))
  let positive ← make_shared (ISpeller.PositionSplitSpeller 3 triad
      (← make_shared (ISpeller.PositionSplitSpeller 3 thousands
        (← make_shared (ISpeller.PositionSplitSpeller 3 millions billions false))
        false))
      false)
  let result ← make_shared (ISpeller.SignSpeller
      (← make_shared (ISpeller.SelectionSpeller 0
        (← make_shared (ISpeller.StringSpeller "Zero")) positive))
      (← make_shared (ISpeller.SequentialSpeller
        (← make_shared (ISpeller.StringSpeller "Minus")) positive)))
  return { unit, units, teens, tens, tensAndUnits, hundreds, triad, thousands, millions,
           billions, positive, result }

/-- The function `getEnglishSpeller`: it returns the local `result`. -/
def getEnglishSpeller : StateM Heap SpellerPtr := do
  return (← englishLocals).result

/-- The heap after `getEnglishSpeller` has run on an empty heap. -/
def englishHeap : Heap := (getEnglishSpeller []).2

/-- The pointer `getEnglishSpeller` returns. -/
def englishSpeller : SpellerPtr := (getEnglishSpeller []).1

/-- The locals of the run of `getEnglishSpeller` that built `englishHeap`. -/
def english : EnglishLocals := (englishLocals []).1

/-- The call `englishSpeller->doSpell(value)` of `main` for an `int` value: the
argument is converted by `SpellerInput(int)`.  The budget is the number of
nodes of the grammar. -/
def spellEnglish (value : Int) : Option String :=
  doSpell englishHeap englishHeap.length englishSpeller (SpellerInput.ofInt value)

/-- The named locals of `getRussianSpeller`, each the pointer it holds. -/
structure RussianLocals where
  mk ::
  one : SpellerPtr
  two : SpellerPtr
  unit : SpellerPtr
  unitGen : SpellerPtr
  unitGenPl : SpellerPtr
  unitsMoreThan4 : SpellerPtr
  units : SpellerPtr
  teens : SpellerPtr
  tens : SpellerPtr
  tensAndUnits : SpellerPtr
  hundreds : SpellerPtr
  triad : SpellerPtr
  thousands : SpellerPtr
  millions : SpellerPtr
  billions : SpellerPtr
  positive : SpellerPtr
  result : SpellerPtr
  deriving Repr, DecidableEq

/-- The body of `getRussianSpeller` (the branch of `#if 0` that is compiled),
keeping every local it declares. -/
def russianLocals : StateM Heap RussianLocals := do
  let one ← make_shared (ISpeller.StringSpeller "один")
  let two ← make_shared (ISpeller.StringSpeller "два")
  let unit ← make_shared ISpeller.NullSpeller
  let unitGen ← make_shared ISpeller.NullSpeller
  let unitGenPl ← make_shared ISpeller.NullSpeller
  let unitsMoreThan4 ← select [
      (5, ← make_shared (ISpeller.StringSpeller "пять")),
      (6, ← make_shared (ISpeller.StringSpeller "шесть")),
      (7, ← make_shared (ISpeller.StringSpeller "семь")),
      (8, ← make_shared (ISpeller.StringSpeller "восемь"))]
      (← make_shared (ISpeller.StringSpeller "девять"))
  let units ← select [
      (0, unitGenPl),
      (1, ← make_shared (ISpeller.SequentialSpeller one unit)),
      (2, ← make_shared (ISpeller.SequentialSpeller two unitGen)),
      (3, ← make_shared (ISpeller.SequentialSpeller
        (← make_shared (ISpeller.StringSpeller "три")) unitGen)),
      (4, ← make_shared (ISpeller.SequentialSpeller
        (← make_shared (ISpeller.StringSpeller "четыре")) unitGen))]
      (← make_shared (ISpeller.SequentialSpeller unitsMoreThan4 unitGenPl))
  let teens ← select [
      (10, ← make_shared (ISpeller.StringSpeller "десять")),
      (11, ← make_shared (ISpeller.StringSpeller "одиннадцать")),
      (12, ← make_shared (ISpeller.StringSpeller "двенадцать")),
      (13, ← make_shared (ISpeller.StringSpeller "тринадцать")),
      (14, ← make_shared (ISpeller.StringSpeller "четырнадцать")),
      (15, ← make_shared (ISpeller.StringSpeller "пятнадцать")),
      (16, ← make_shared (ISpeller.StringSpeller "шестнадцать")),
      (17, ← make_shared (ISpeller.StringSpeller "семнадцать")),
      (18, ← make_shared (ISpeller.StringSpeller "восемнадцать"))]
      (← make_shared (ISpeller.StringSpeller "девятнадцать"))
  let tens ← select [
      (2, ← make_shared (ISpeller.StringSpeller "двадцать")),
      (3, ← make_shared (ISpeller.StringSpeller "тридцать")),
      (4, ← make_shared (ISpeller.StringSpeller "сорок")),
      (5, ← make_shared (ISpeller.StringSpeller "пятьдесят")),
      (6, ← make_shared (ISpeller.StringSpeller "шестьдесят")),
      (7, ← make_shared (ISpeller.StringSpeller "семьдесят")),
      (8, ← make_shared (ISpeller.StringSpeller "восемьдесят"))]
      (← make_shared (ISpeller.StringSpeller "девяносто"))
  let tensAndUnits ← make_shared (ISpeller.SelectionSpeller 9 units
      (← make_shared (ISpeller.SelectionSpeller 19
        (← make_shared (ISpeller.SequentialSpeller teens unitGenPl))
        (← make_shared (ISpeller.PositionSplitSpeller 1 units tens false)))))
  let hundreds ← select [
      (0, ← make_shared ISpeller.NullSpeller),
      (1, ← make_shared (ISpeller.StringSpeller "сто")),
      (2, ← make_shared (ISpeller.StringSpeller "двести")),
      (3, ← make_shared (ISpeller.StringSpeller "триста")),
      (4, ← make_shared (ISpeller.StringSpeller "четыреста")),
      (5, ← make_shared (ISpeller.StringSpeller "пятьсот")),
      (6, ← make_shared (ISpeller.StringSpeller "шестьсот")),
      (7, ← make_shared (ISpeller.StringSpeller "семьсот")),
      (8, ← make_shared (ISpeller.StringSpeller "восемьсот"))]
      (← make_shared (ISpeller.StringSpeller "девятьсот"))
  let triad ← make_shared (ISpeller.PositionSplitSpeller 2 tensAndUnits hundreds false)
  let thousands ← make_shared (ISpeller.SelectionSpeller 0
      (← make_shared ISpeller.NullSpeller)
      (← make_shared (ISpeller.SubstituteSpeller one
        (← make_shared (ISpeller.StringSpeller "одна"))
        (← make_shared (ISpeller.SubstituteSpeller two
          (← make_shared (ISpeller.StringSpeller "две"))
          (← make_shared (ISpeller.SubstituteSpeller unit
            (← make_shared (ISpeller.StringSpeller "тысяча"))
            (← make_shared (ISpeller.SubstituteSpeller unitGen
              (← make_shared (ISpeller.StringSpeller "тысячи"))
              (← make_shared (ISpeller.SubstituteSpeller unitGenPl
                (← make_shared (ISpeller.StringSpeller "тысяч"))
                triad)))))))))))
  let millions ← make_shared (ISpeller.SelectionSpeller 0
      (← make_shared ISpeller.NullSpeller)
      (← make_shared (ISpeller.SubstituteSpeller unit
        (← make_shared (ISpeller.StringSpeller "миллион"))
        (← make_shared (ISpeller.SubstituteSpeller unitGen
          (← make_shared (ISpeller.StringSpeller "миллиона"))
          (← make_shared (ISpeller.SubstituteSpeller unitGenPl
            (← make_shared (ISpeller.StringSpeller "миллионов"))
            triad)))))))
  let billions ← make_shared (ISpeller.SelectionSpeller 0
      (← make_shared ISpeller.NullSpeller)
      (← make_shared (ISpeller.SubstituteSpeller unit
        (← make_shared (ISpeller.StringSpeller "миллиард"))
        (← make_shared (ISpeller.SubstituteSpeller unitGen
          (← make_shared (ISpeller.StringSpeller "миллиарда"))
          (← make_shared (ISpeller.SubstituteSpeller unitGenPl
            (← make_shared (ISpeller.StringSpeller "миллиардов"))
            triad)))))))
  let positive ← make_shared (ISpeller.PositionSplitSpeller 3 triad
      (← make_shared (ISpeller.PositionSplitSpeller 3 thousands
        (← make_shared (ISpeller.PositionSplitSpeller 3 millions billions false))
        false))
      false)
  let result ← make_shared (ISpeller.SignSpeller
      (← make_shared (ISpeller.SelectionSpeller 0
        (← make_shared (ISpeller.StringSpeller "ноль")) positive))
      (← make_shared (ISpeller.SequentialSpeller
        (← make_shared (ISpeller.StringSpeller "минус")) positive)))
  return { one, two, unit, unitGen, unitGenPl, unitsMoreThan4, units, teens, tens,
           tensAndUnits, hundreds, triad, thousands, millions, billions, positive, result }

/-- The function `getRussianSpeller`: it returns the local `result`. -/
def getRussianSpeller : StateM Heap SpellerPtr := do
  return (← russianLocals).result

/-- The heap after `getRussianSpeller` has run on an empty heap. -/
def russianHeap : Heap := (getRussianSpeller []).2

/-- The pointer `getRussianSpeller` returns. -/
def russianSpeller : SpellerPtr := (getRussianSpeller []).1

/-- The locals of the run of `getRussianSpeller` that built `russianHeap`. -/
def russian : RussianLocals := (russianLocals []).1

/-- The call `russianSpeller->doSpell(value)` of `main` for an `int` value. -/
def spellRussian (value : Int) : Option String :=
  doSpell russianHeap russianHeap.length russianSpeller (SpellerInput.ofInt value)

/-! ## Reference texts, written from the specification -/

/-- The word of a digit: One .. Nine. -/
def Digit (d : Nat) : String :=
  match d with
  | 1 => "One" | 2 => "Two" | 3 => "Three" | 4 => "Four" | 5 => "Five"
  | 6 => "Six" | 7 => "Seven" | 8 => "Eight" | 9 => "Nine" | _ => ""

/-- The word of a number from ten to nineteen: Ten .. Nineteen. -/
def Teen (r : Nat) : String :=
  match r with
  | 10 => "Ten" | 11 => "Eleven" | 12 => "Twelve" | 13 => "Thirteen" | 14 => "Fourteen"
  | 15 => "Fifteen" | 16 => "Sixteen" | 17 => "Seventeen" | 18 => "Eighteen"
  | 19 => "Nineteen" | _ => ""

/-- The word of a tens digit from two to nine: Twenty .. Ninety. -/
def Tens (d : Nat) : String :=
  match d with
  | 2 => "Twenty" | 3 => "Thirty" | 4 => "Forty" | 5 => "Fifty"
  | 6 => "Sixty" | 7 => "Seventy" | 8 => "Eighty" | 9 => "Ninety" | _ => ""

/-- The hundreds part `H` of the English triad reference. -/
def triadH (h : Nat) : String := if h = 0 then "" else Digit h ++ " Hundred "

/-- The part `R` of the English triad reference for the last two digits. -/
def triadR (r : Nat) : String :=
  if r = 0 then ""
  else if r ≤ 9 then Digit r ++ " "
  else if r ≤ 19 then Teen r ++ " "
  else Tens (r / 10) ++ " " ++ (if r % 10 = 0 then "" else Digit (r % 10) ++ " ")

/-- The English triad reference `H ++ R` with `h = t / 100` and `r = t mod 100`. -/
def triadReference (t : Nat) : String := triadH (t / 100) ++ triadR (t % 100)

/-- The text `G(t, W)` of a digit group: nothing for a zero triad, otherwise
the triad text `T(t)`, the multiplier word and one space. -/
def groupText (T : Nat → String) (t : Nat) (W : String) : String :=
  if t = 0 then "" else T t ++ W ++ " "

/-- The digit-group decomposition of a magnitude below 10^12, over a triad
text `T`. -/
def englishGroups (T : Nat → String) (m : Nat) : String :=
  groupText T (m / 10 ^ 9) "Billion" ++ groupText T (m / 10 ^ 6 % 1000) "Million"
    ++ groupText T (m / 1000 % 1000) "Thousand" ++ T (m % 1000)

/-- The substitution maps under which the English triad is evaluated from an
empty map: none, or `unit` (address 0) redirected to the multiplier word of a
group: "Thousand" (address 65) in `thousands` (1), "Million" (69) in
`millions` (2), "Billion" (73) in `billions` (3). -/
def englishOverlay : Nat → SpellerPtrMap
  | 1 => SpellerPtrMap.empty.assign 0 65
  | 2 => SpellerPtrMap.empty.assign 0 69
  | 3 => SpellerPtrMap.empty.assign 0 73
  | _ => SpellerPtrMap.empty

/-- The text that the redirected `unit` contributes under `englishOverlay`. -/
def englishSuffix : Nat → String
  | 1 => "Thousand "
  | 2 => "Million "
  | 3 => "Billion "
  | _ => ""

/-- The substitution maps under which the Russian triad is evaluated from an
empty map: none, or the maps built by the chains of `SubstituteSpeller` of
`thousands` (1), `millions` (2) and `billions` (3); the keys are the addresses
of `one` (0), `two` (1), `unit` (2), `unitGen` (3) and `unitGenPl` (4), the
values the addresses of the words of the group. -/
def russianOverlay : Nat → SpellerPtrMap
  | 1 => ((((SpellerPtrMap.empty.assign 0 85).assign 1 86).assign 2 87).assign 3 88).assign 4 89
  | 2 => ((SpellerPtrMap.empty.assign 2 97).assign 3 98).assign 4 99
  | 3 => ((SpellerPtrMap.empty.assign 2 105).assign 3 106).assign 4 107
  | _ => SpellerPtrMap.empty

/-- The text of the slot `one` in group `k`: feminine in the thousands. -/
def ruOne (k : Nat) : String := if k = 1 then "одна " else "один "

/-- The text of the slot `two` in group `k`: feminine in the thousands. -/
def ruTwo (k : Nat) : String := if k = 1 then "две " else "два "

/-- The text of the slot `unit` in group `k` (nominative singular). -/
def ruUnit : Nat → String
  | 1 => "тысяча " | 2 => "миллион " | 3 => "миллиард " | _ => ""

/-- The text of the slot `unitGen` in group `k` (genitive singular). -/
def ruUnitGen : Nat → String
  | 1 => "тысячи " | 2 => "миллиона " | 3 => "миллиарда " | _ => ""

/-- The text of the slot `unitGenPl` in group `k` (genitive plural). -/
def ruUnitGenPl : Nat → String
  | 1 => "тысяч " | 2 => "миллионов " | 3 => "миллиардов " | _ => ""

/-- The closed form of the Russian `units` ladder in group `k`. -/
def ruUnits (k d : Nat) : String :=
  match d with
  | 0 => ruUnitGenPl k
  | 1 => ruOne k ++ ruUnit k
  | 2 => ruTwo k ++ ruUnitGen k
  | 3 => "три " ++ ruUnitGen k
  | 4 => "четыре " ++ ruUnitGen k
  | 5 => "пять " ++ ruUnitGenPl k
  | 6 => "шесть " ++ ruUnitGenPl k
  | 7 => "семь " ++ ruUnitGenPl k
  | 8 => "восемь " ++ ruUnitGenPl k
  | _ => "девять " ++ ruUnitGenPl k

/-- The closed form of the Russian `teens` ladder. -/
def ruTeens (r : Nat) : String :=
  match r with
  | 10 => "десять " | 11 => "одиннадцать " | 12 => "двенадцать " | 13 => "тринадцать "
  | 14 => "четырнадцать " | 15 => "пятнадцать " | 16 => "шестнадцать "
  | 17 => "семнадцать " | 18 => "восемнадцать " | _ => "девятнадцать "

/-- The closed form of the Russian `tens` ladder. -/
def ruTens (d : Nat) : String :=
  match d with
  | 2 => "двадцать " | 3 => "тридцать " | 4 => "сорок " | 5 => "пятьдесят "
  | 6 => "шестьдесят " | 7 => "семьдесят " | 8 => "восемьдесят " | _ => "девяносто "

/-- The closed form of the Russian `hundreds` ladder. -/
def ruHundreds (h : Nat) : String :=
  match h with
  | 0 => "" | 1 => "сто " | 2 => "двести " | 3 => "триста " | 4 => "четыреста "
  | 5 => "пятьсот " | 6 => "шестьсот " | 7 => "семьсот " | 8 => "восемьсот "
  | _ => "девятьсот "

/-- The closed form of the Russian `tensAndUnits` node in group `k`. -/
def ruTensAndUnits (k r : Nat) : String :=
  if r ≤ 9 then ruUnits k r
  else if r ≤ 19 then ruTeens r ++ ruUnitGenPl k
  else ruTens (r / 10) ++ ruUnits k (r % 10)

/-- The closed form of the Russian `triad` node in group `k`. -/
def ruTriad (k t : Nat) : String := ruHundreds (t / 100) ++ ruTensAndUnits k (t % 100)

/-- The closed form of a Russian digit group: nothing for a zero triad. -/
def ruGroup (k t : Nat) : String := if t = 0 then "" else ruTriad k t

/-- The closed form of the Russian `positive` node for magnitudes below 10^12. -/
def russianGroups (m : Nat) : String :=
  ruGroup 3 (m / 10 ^ 9) ++ ruGroup 2 (m / 10 ^ 6 % 1000) ++ ruGroup 1 (m / 1000 % 1000)
    ++ ruTriad 0 (m % 1000)

/-- The space-terminated words of a text, read from the characters `cs` with
`cur` the word begun so far; characters after the last space form a last word. -/
def splitWords : List Char → List Char → List String
  | [], cur => if cur.isEmpty then [] else [String.mk cur]
  | c :: cs, cur =>
    if c = ' ' then String.mk cur :: splitWords cs [] else splitWords cs (cur ++ [c])

/-- The sequence of words of a text. -/
def wordsOf (s : String) : List String := splitWords s.data []

/-- The English triad node's spelling of `t` under the empty overlay, in a
non-negative context (the text `T(t)` of the digit-group decomposition). -/
def englishTriadText (t : Nat) : String :=
  (doSpell englishHeap englishHeap.length english.triad
    ⟨t, false, SpellerPtrMap.empty⟩).getD ""

/-- A text that is empty or ends with a space. -/
def Terminated (s : String) : Prop := s.data = [] ∨ s.data.getLast? = some ' '

instance (s : String) : Decidable (Terminated s) := by
  unfold Terminated; infer_instance

/-- The heap of the override-scoping example: the words "A" (0) and "B" (1),
the override of "A" by "B" around "A" (2), the word "X" (3), the sibling word
"S" (4), the sequence of the override and the sibling (5), and a root that
redirects the override node to "X" around the sequence (6). -/
def scopeHeap : Heap :=
  [ISpeller.StringSpeller "A", ISpeller.StringSpeller "B",
   ISpeller.SubstituteSpeller 0 1 0, ISpeller.StringSpeller "X",
   ISpeller.StringSpeller "S", ISpeller.SequentialSpeller 2 4,
   ISpeller.SubstituteSpeller 2 3 5]

/-- The heap of three words on which the ladder of the routing example is built. -/
def wordHeap : Heap :=
  [ISpeller.StringSpeller "A", ISpeller.StringSpeller "B", ISpeller.StringSpeller "Z"]

/-- The heap of the split example: a split at position 64 of two empty nodes. -/
def wideSplitHeap : Heap :=
  [ISpeller.NullSpeller, ISpeller.PositionSplitSpeller 64 0 0 false]

/-- The heap of the nested-override example: the words "A" (0), "B" (1),
"C" (2), the inner override of "A" by "C" around "A" (3), the outer override of
"A" by "B" around the inner one (4), the word "Z" (5), and a root that
redirects the inner override node to "Z" around the outer one (6). -/
def nestedHeap : Heap :=
  [ISpeller.StringSpeller "A", ISpeller.StringSpeller "B", ISpeller.StringSpeller "C",
   ISpeller.SubstituteSpeller 0 2 0, ISpeller.SubstituteSpeller 0 1 3,
   ISpeller.StringSpeller "Z", ISpeller.SubstituteSpeller 3 5 4]

/-- The heap of the recursion example: an empty node `unit` (0), the sequence
of `unit` and `unit` (1), and the override of `unit` by that sequence around
`unit` (2); every node is allocated after its children. -/
def loopHeap : Heap :=
  [ISpeller.NullSpeller, ISpeller.SequentialSpeller 0 0, ISpeller.SubstituteSpeller 0 1 0]

/-- The pointers a node holds were all allocated before the node at `p`. -/
def childrenBefore (p : Nat) : ISpeller → Bool
  | ISpeller.NullSpeller => true
  | ISpeller.StringSpeller _ => true
  | ISpeller.SubstituteSpeller m_from m_to m_what =>
    decide (m_from < p) && decide (m_to < p) && decide (m_what < p)
  | ISpeller.SelectionSpeller _ m_lower m_higher => decide (m_lower < p) && decide (m_higher < p)
  | ISpeller.SignSpeller m_higher m_lower => decide (m_higher < p) && decide (m_lower < p)
  | ISpeller.SequentialSpeller m_first m_second => decide (m_first < p) && decide (m_second < p)
  | ISpeller.PositionSplitSpeller _ m_right m_left _ =>
    decide (m_right < p) && decide (m_left < p)

/-- A graph built with children constructed before their parents. -/
def ChildrenFirst (heap : Heap) : Prop :=
  ∀ (p : Nat) (h : p < heap.length), childrenBefore p (heap.get ⟨p, h⟩) = true

instance (heap : Heap) : Decidable (ChildrenFirst heap) := by
  unfold ChildrenFirst; infer_instance

/-- The pointer addresses an Empty or a Literal node. -/
def leafAt (heap : Heap) (p : SpellerPtr) : Bool :=
  match heap[p]? with
  | some ISpeller.NullSpeller => true
  | some (ISpeller.StringSpeller _) => true
  | _ => false

/-- An override redirects to an Empty or Literal node, and a split position is
below 64 (so that its 64-bit divider is not zero). -/
def leafOverride (heap : Heap) : ISpeller → Bool
  | ISpeller.SubstituteSpeller _ m_to _ => leafAt heap m_to
  | ISpeller.PositionSplitSpeller m_position _ _ _ => decide (m_position < 64)
  | _ => true

/-- Every override of the graph redirects to a leaf and every split position
is below 64. -/
def LeafOverrides (heap : Heap) : Prop :=
  ∀ (p : Nat) (h : p < heap.length), leafOverride heap (heap.get ⟨p, h⟩) = true

instance (heap : Heap) : Decidable (LeafOverrides heap) := by
  unfold LeafOverrides; infer_instance

/-- Every value of the substitution map of the input addresses a leaf. -/
def OverlayToLeaves (heap : Heap) (input : SpellerInput) : Prop :=
  ∀ k v, input.m_substitutes k = some v → leafAt heap v = true

/-- The text `s` ends with the text `x`. -/
def EndsWith (s x : String) : Prop := x.data <:+ s.data

instance (s x : String) : Decidable (EndsWith s x) := by
  unfold EndsWith; infer_instance

/-- The digits of `k` that call for the form "тысяча": last digit 1, last two
digits not 11. -/
def thousandSingular (k : Nat) : Prop := k % 10 = 1 ∧ k % 100 ≠ 11

/-- The digits of `k` that call for the form "тысячи": last digit 2, 3 or 4,
last two digits not 12, 13 or 14. -/
def thousandPaucal (k : Nat) : Prop :=
  (k % 10 = 2 ∨ k % 10 = 3 ∨ k % 10 = 4) ∧ k % 100 ≠ 12 ∧ k % 100 ≠ 13 ∧ k % 100 ≠ 14

instance (k : Nat) : Decidable (thousandSingular k) := by
  unfold thousandSingular; infer_instance

instance (k : Nat) : Decidable (thousandPaucal k) := by
  unfold thousandPaucal; infer_instance

/-- The check that a text read from `cs` is a sequence of non-empty words each
followed by exactly one space; `inside` tells that a word has been begun. -/
def wordsFrom : Bool → List Char → Bool
  | inside, [] => !inside
  | inside, c :: cs => if c = ' ' then inside && wordsFrom false cs else wordsFrom true cs

/-- The text passes the check `wordsFrom` from the start of a word. -/
def Checked (s : String) : Prop := wordsFrom false s.data = true

instance (s : String) : Decidable (Checked s) := by
  unfold Checked; infer_instance

/-- The text is the concatenation of the words `ws`, each followed by one space. -/
def joinWords (ws : List (List Char)) : List Char := (ws.map (fun w => w ++ [' '])).flatten

/-- The output format: the text is not empty; it is a concatenation of
non-empty words without a space, each followed by one space; it ends with a
space, does not begin with a space and has no two consecutive spaces. -/
def OutputFormat (s : String) : Prop :=
  s ≠ ""
    ∧ (∃ ws : List (List Char), ws ≠ [] ∧ (∀ w ∈ ws, w ≠ [] ∧ ' ' ∉ w)
        ∧ s.data = joinWords ws)
    ∧ s.data.getLast? = some ' '
    ∧ s.data.head? ≠ some ' '
    ∧ ¬ ([' ', ' '] <:+: s.data)

/-- The value of an English word below one hundred; other words count 0. -/
def smallValue (w : String) : Nat :=
  if w = "One" then 1 else if w = "Two" then 2 else if w = "Three" then 3
  else if w = "Four" then 4 else if w = "Five" then 5 else if w = "Six" then 6
  else if w = "Seven" then 7 else if w = "Eight" then 8 else if w = "Nine" then 9
  else if w = "Ten" then 10 else if w = "Eleven" then 11 else if w = "Twelve" then 12
  else if w = "Thirteen" then 13 else if w = "Fourteen" then 14
  else if w = "Fifteen" then 15 else if w = "Sixteen" then 16
  else if w = "Seventeen" then 17 else if w = "Eighteen" then 18
  else if w = "Nineteen" then 19 else if w = "Twenty" then 20
  else if w = "Thirty" then 30 else if w = "Forty" then 40 else if w = "Fifty" then 50
  else if w = "Sixty" then 60 else if w = "Seventy" then 70
  else if w = "Eighty" then 80 else if w = "Ninety" then 90 else 0

/-- Reading one word inside a triad: "Hundred" multiplies, other words add. -/
def stepCur (cur : Nat) (w : String) : Nat :=
  if w = "Hundred" then cur * 100 else cur + smallValue w

/-- Reading one word of an English spelling: a multiplier word closes the
triad read so far, other words are read inside the triad. -/
def stepWord (st : Nat × Nat) (w : String) : Nat × Nat :=
  if w = "Thousand" then (st.1 + st.2 * 1000, 0)
  else if w = "Million" then (st.1 + st.2 * 1000000, 0)
  else if w = "Billion" then (st.1 + st.2 * 1000000000, 0)
  else (st.1, stepCur st.2 w)

/-- The magnitude read back from the words of an English spelling. -/
def decodeWords (ws : List String) : Nat :=
  (ws.foldl stepWord (0, 0)).1 + (ws.foldl stepWord (0, 0)).2

/-- The value read back from an English spelling. -/
def decodeEnglish (s : String) : Int :=
  if "Minus" ∈ wordsOf s then -((decodeWords (wordsOf s) : Nat) : Int)
  else ((decodeWords (wordsOf s) : Nat) : Int)

/-- A word that is neither a multiplier word nor "Minus". -/
def plainWord (w : String) : Prop :=
  w ≠ "Thousand" ∧ w ≠ "Million" ∧ w ≠ "Billion" ∧ w ≠ "Minus"

instance (w : String) : Decidable (plainWord w) := by
  unfold plainWord; infer_instance

/-! ## General facts about `doSpell` -/

theorem doSpell_zero (heap : Heap) (self : SpellerPtr) (input : SpellerInput) :
    doSpell heap 0 self input = none := rfl

theorem doSpell_null {heap : Heap} {self : SpellerPtr}
    (h : heap[self]? = some ISpeller.NullSpeller) (fuel : Nat) (input : SpellerInput) :
    doSpell heap (fuel + 1) self input = some "" := by
  simp [doSpell, h]

theorem doSpell_string {heap : Heap} {self : SpellerPtr} {m_value : String}
    (h : heap[self]? = some (ISpeller.StringSpeller m_value)) (fuel : Nat)
    (input : SpellerInput) :
    doSpell heap (fuel + 1) self input = some (m_value ++ " ") := by
  simp [doSpell, h]

theorem doSpell_substitute {heap : Heap} {self m_from m_to m_what : SpellerPtr}
    (h : heap[self]? = some (ISpeller.SubstituteSpeller m_from m_to m_what)) (fuel : Nat)
    (input : SpellerInput) :
    doSpell heap (fuel + 1) self input
      = (input.addSubstitute m_from m_to).spell (doSpell heap fuel) m_what := by
  simp [doSpell, h]

theorem doSpell_selection {heap : Heap} {self m_lower m_higher : SpellerPtr}
    {m_threshold : Nat}
    (h : heap[self]? = some (ISpeller.SelectionSpeller m_threshold m_lower m_higher))
    (fuel : Nat) (input : SpellerInput) :
    doSpell heap (fuel + 1) self input
      = if input.m_number ≤ m_threshold then input.spell (doSpell heap fuel) m_lower
        else input.spell (doSpell heap fuel) m_higher := by
  simp [doSpell, h, SpellerInput.isLessEqual]

theorem doSpell_sign {heap : Heap} {self m_higher m_lower : SpellerPtr}
    (h : heap[self]? = some (ISpeller.SignSpeller m_higher m_lower))
    (fuel : Nat) (input : SpellerInput) :
    doSpell heap (fuel + 1) self input
      = if input.m_negative = true then input.spell (doSpell heap fuel) m_lower
        else input.spell (doSpell heap fuel) m_higher := by
  simp [doSpell, h, SpellerInput.isNegative]

theorem doSpell_sequential {heap : Heap} {self m_first m_second : SpellerPtr}
    (h : heap[self]? = some (ISpeller.SequentialSpeller m_first m_second))
    (fuel : Nat) (input : SpellerInput) {first second : String}
    (h1 : input.spell (doSpell heap fuel) m_first = some first)
    (h2 : input.spell (doSpell heap fuel) m_second = some second) :
    doSpell heap (fuel + 1) self input = some (first ++ second) := by
  simp [doSpell, h, h1, h2]

theorem divider_ne_zero_of_lt (pos : Int) (h : pos < 20) : divider pos ≠ 0 := by
  have : ∀ n < 20, dividerLoop n 1 ≠ 0 := by decide
  exact this _ (by omega)

theorem doSpell_split {heap : Heap} {self m_right m_left : SpellerPtr} {m_position : Int}
    {m_inverseOrder : Bool}
    (h : heap[self]? = some (ISpeller.PositionSplitSpeller m_position m_right m_left
      m_inverseOrder))
    (fuel : Nat) (input : SpellerInput) (hdiv : divider m_position ≠ 0)
    {left right : String}
    (h1 : SpellerInput.spell (doSpell heap fuel)
      { input with m_number := input.m_number / divider m_position } m_left = some left)
    (h2 : SpellerInput.spell (doSpell heap fuel)
      { input with m_number := input.m_number % divider m_position } m_right = some right) :
    doSpell heap (fuel + 1) self input
      = some (if m_inverseOrder = true then right ++ left else left ++ right) := by
  simp [doSpell, h, SpellerInput.left, SpellerInput.right, hdiv, h1, h2]

/-- A result obtained within a budget is obtained within every larger one. -/
theorem doSpell_mono (heap : Heap) :
    ∀ (fuel fuel2 : Nat) (self : SpellerPtr) (input : SpellerInput) (s : String),
      fuel ≤ fuel2 → doSpell heap fuel self input = some s →
      doSpell heap fuel2 self input = some s := by
  intro fuel
  induction fuel with
  | zero => intro fuel2 self input s _ h; simp [doSpell] at h
  | succ n ih =>
    intro fuel2 self input s hle h
    obtain ⟨m, rfl⟩ : ∃ m, fuel2 = m + 1 := ⟨fuel2 - 1, by omega⟩
    have hnm : n ≤ m := by omega
    have hsp : ∀ (i : SpellerInput) (q : SpellerPtr) (t : String),
        i.spell (doSpell heap n) q = some t → i.spell (doSpell heap m) q = some t := by
      intro i q t ht
      unfold SpellerInput.spell at ht ⊢
      cases hq : i.m_substitutes q with
      | none => simp only [hq] at ht ⊢; exact ih m q i t hnm ht
      | some r => simp only [hq] at ht ⊢; exact ih m r i t hnm ht
    rw [doSpell] at h ⊢
    cases hnode : heap[self]? with
    | none => simp [hnode] at h
    | some node =>
      cases node with
      | NullSpeller => simpa [hnode] using h
      | StringSpeller v => simpa [hnode] using h
      | SubstituteSpeller f t w =>
        simp only [hnode] at h ⊢
        exact hsp _ _ _ h
      | SelectionSpeller th lo hi =>
        simp only [hnode] at h ⊢
        split at h
        · rename_i hc; simp only [hc, if_true]; exact hsp _ _ _ h
        · rename_i hc; simp only [hc]; exact hsp _ _ _ h
      | SignSpeller hi lo =>
        simp only [hnode] at h ⊢
        split at h
        · rename_i hc; simp only [hc, if_true]; exact hsp _ _ _ h
        · rename_i hc; simp only [hc]; exact hsp _ _ _ h
      | SequentialSpeller a b =>
        simp only [hnode] at h ⊢
        cases ha : input.spell (doSpell heap n) a with
        | none => simp [ha] at h
        | some x =>
          cases hb : input.spell (doSpell heap n) b with
          | none => simp [ha, hb] at h
          | some y =>
            simp only [ha, hb] at h
            simp only [hsp _ _ _ ha, hsp _ _ _ hb]
            exact h
      | PositionSplitSpeller pos r l inv =>
        simp only [hnode] at h ⊢
        cases hl : input.left pos with
        | none => simp [hl] at h
        | some il =>
          cases hr : input.right pos with
          | none => simp [hl, hr] at h
          | some ir =>
            simp only [hl, hr] at h ⊢
            cases ha : il.spell (doSpell heap n) l with
            | none => simp [ha] at h
            | some x =>
              cases hb : ir.spell (doSpell heap n) r with
              | none => simp [ha, hb] at h
              | some y =>
                simp only [ha, hb] at h
                simp only [hsp _ _ _ ha, hsp _ _ _ hb]
                exact h

theorem spell_of_none {f : SpellerPtr → SpellerInput → Option String}
    {input : SpellerInput} {q : SpellerPtr} (h : input.m_substitutes q = none) :
    input.spell f q = f q input := by
  simp [SpellerInput.spell, h]

theorem spell_of_some {f : SpellerPtr → SpellerInput → Option String}
    {input : SpellerInput} {q r : SpellerPtr} (h : input.m_substitutes q = some r) :
    input.spell f q = f r input := by
  simp [SpellerInput.spell, h]

theorem doSpell_split_direct {heap : Heap} {self m_right m_left : SpellerPtr}
    {m_position : Int} {m_inverseOrder : Bool}
    (h : heap[self]? = some (ISpeller.PositionSplitSpeller m_position m_right m_left
      m_inverseOrder))
    (fuel : Nat) (m : Nat) (neg : Bool) (ov : SpellerPtrMap) {d : Nat}
    (hd : divider m_position = d) (hd0 : d ≠ 0)
    (hl : ov m_left = none) (hr : ov m_right = none) {left right : String}
    (h1 : doSpell heap fuel m_left ⟨m / d, neg, ov⟩ = some left)
    (h2 : doSpell heap fuel m_right ⟨m % d, neg, ov⟩ = some right) :
    doSpell heap (fuel + 1) self ⟨m, neg, ov⟩
      = some (if m_inverseOrder = true then right ++ left else left ++ right) := by
  subst hd
  apply doSpell_split h fuel ⟨m, neg, ov⟩ hd0
  · rw [spell_of_none hl]; exact h1
  · rw [spell_of_none hr]; exact h2

theorem doSpell_substitute_direct {heap : Heap} {self m_from m_to m_what : SpellerPtr}
    (h : heap[self]? = some (ISpeller.SubstituteSpeller m_from m_to m_what)) (fuel : Nat)
    (m : Nat) (neg : Bool) (ov : SpellerPtrMap) (hw : (ov.assign m_from m_to) m_what = none) :
    doSpell heap (fuel + 1) self ⟨m, neg, ov⟩
      = doSpell heap fuel m_what ⟨m, neg, ov.assign m_from m_to⟩ := by
  rw [doSpell_substitute h, spell_of_none (by simpa [SpellerInput.addSubstitute] using hw)]
  rfl

theorem doSpell_selection_le {heap : Heap} {self m_lower m_higher : SpellerPtr}
    {m_threshold : Nat}
    (h : heap[self]? = some (ISpeller.SelectionSpeller m_threshold m_lower m_higher))
    (fuel : Nat) (m : Nat) (neg : Bool) (ov : SpellerPtrMap) (hm : m ≤ m_threshold)
    (hov : ov m_lower = none) :
    doSpell heap (fuel + 1) self ⟨m, neg, ov⟩ = doSpell heap fuel m_lower ⟨m, neg, ov⟩ := by
  rw [doSpell_selection h]
  simp only [hm, if_true]
  rw [spell_of_none hov]

theorem doSpell_selection_gt {heap : Heap} {self m_lower m_higher : SpellerPtr}
    {m_threshold : Nat}
    (h : heap[self]? = some (ISpeller.SelectionSpeller m_threshold m_lower m_higher))
    (fuel : Nat) (m : Nat) (neg : Bool) (ov : SpellerPtrMap) (hm : m_threshold < m)
    (hov : ov m_higher = none) :
    doSpell heap (fuel + 1) self ⟨m, neg, ov⟩ = doSpell heap fuel m_higher ⟨m, neg, ov⟩ := by
  rw [doSpell_selection h]
  have : ¬ m ≤ m_threshold := by omega
  simp only [this, if_false]
  rw [spell_of_none hov]

theorem divider_two : divider 2 = 100 := by decide

theorem divider_three : divider 3 = 1000 := by decide

/-! ## Ladders built by `select` -/

theorem select_nil (last : SpellerPtr) (heap : Heap) : select [] last heap = (last, heap) := rfl

theorem select_cons (t : Nat) (p : SpellerPtr) (xs : List (Nat × SpellerPtr))
    (last : SpellerPtr) (heap : Heap) :
    select ((t, p) :: xs) last heap
      = ((select xs last heap).2.length,
         (select xs last heap).2
           ++ [ISpeller.SelectionSpeller t p (select xs last heap).1]) := rfl

theorem select_length (xs : List (Nat × SpellerPtr)) (last : SpellerPtr) (heap : Heap) :
    (select xs last heap).2.length = heap.length + xs.length := by
  induction xs with
  | nil => simp [select_nil]
  | cons a xs ih =>
    obtain ⟨t, p⟩ := a
    rw [select_cons]
    simp [ih]
    omega

theorem select_top (t : Nat) (p : SpellerPtr) (xs : List (Nat × SpellerPtr))
    (last : SpellerPtr) (heap : Heap) :
    (select ((t, p) :: xs) last heap).1 = heap.length + xs.length := by
  rw [select_cons]
  exact select_length xs last heap

theorem lookup_of_prefix {l full : Heap} {x : ISpeller} (h : l ++ [x] <+: full) :
    full[l.length]? = some x := by
  obtain ⟨r, rfl⟩ := h
  rw [List.append_assoc, List.getElem?_append_right (Nat.le_refl _)]
  simp

theorem prefix_of_snoc_prefix {l full : Heap} {x : ISpeller} (h : l ++ [x] <+: full) :
    l <+: full :=
  (List.prefix_append l [x]).trans h


theorem ladder_route (full : Heap) (c : SpellerInput) (heap : Heap) (last : SpellerPtr) :
    ∀ (xs : List (Nat × SpellerPtr)) (t : Nat) (p : SpellerPtr),
      (select ((t, p) :: xs) last heap).2 <+: full →
      (∀ q : Nat, heap.length ≤ q → q < heap.length + xs.length →
        c.m_substitutes q = none) →
      (∀ (i ti : Nat) (pi : SpellerPtr) (fuel : Nat),
          ((t, p) :: xs)[i]? = some (ti, pi) → c.m_number ≤ ti →
          (∀ (j tj : Nat) (pj : SpellerPtr), j < i → ((t, p) :: xs)[j]? = some (tj, pj) →
            tj < c.m_number) →
          doSpell full (fuel + i + 1) (select ((t, p) :: xs) last heap).1 c
            = c.spell (doSpell full fuel) pi)
      ∧ ((∀ a ∈ (t, p) :: xs, a.1 < c.m_number) → ∀ fuel : Nat,
          doSpell full (fuel + xs.length + 1) (select ((t, p) :: xs) last heap).1 c
            = c.spell (doSpell full fuel) last) := by
  intro xs
  induction xs with
  | nil =>
    intro t p hpre _
    rw [select_cons, select_nil] at hpre
    have hnode := lookup_of_prefix hpre
    rw [select_top]
    simp only [List.length_nil, Nat.add_zero]
    constructor
    · intro i ti pi fuel hi hle _
      cases i with
      | zero =>
        simp at hi
        obtain ⟨rfl, rfl⟩ := hi
        rw [doSpell_selection hnode]
        simp [hle]
      | succ i => simp at hi
    · intro hall fuel
      have : ¬ c.m_number ≤ t := by
        have := hall (t, p) (by simp)
        simp at this
        omega
      rw [doSpell_selection hnode]
      simp [this]
  | cons a ys ih =>
    obtain ⟨t2, p2⟩ := a
    intro t p hpre hov
    rw [select_cons] at hpre
    have hnode := lookup_of_prefix hpre
    have hpre1 := prefix_of_snoc_prefix hpre
    rw [select_length, select_top] at hnode
    have hih := ih t2 p2 hpre1 (fun q h1 h2 => hov q h1 (by simp; omega))
    have hhi : c.m_substitutes (heap.length + ys.length) = none :=
      hov _ (by omega) (by simp)
    rw [select_top]
    rw [select_top] at hih
    simp only [List.length_cons] at hnode ⊢
    constructor
    · intro i ti pi fuel hi hle hsmall
      cases i with
      | zero =>
        simp at hi
        obtain ⟨rfl, rfl⟩ := hi
        rw [doSpell_selection hnode]
        simp [hle]
      | succ i =>
        have h0 := hsmall 0 t p (by omega) (by simp)
        have hnot : ¬ c.m_number ≤ t := by omega
        have e : fuel + (i + 1) + 1 = (fuel + i + 1) + 1 := by omega
        rw [e, doSpell_selection hnode]
        simp only [hnot, if_false]
        rw [spell_of_none hhi]
        apply hih.1 i ti pi fuel (by simpa using hi) hle
        intro j tj pj hj hjs
        exact hsmall (j + 1) tj pj (by omega) (by simpa using hjs)
    · intro hall fuel
      have hnot : ¬ c.m_number ≤ t := by
        have := hall (t, p) (by simp)
        simp at this
        omega
      have e : fuel + (ys.length + 1) + 1 = (fuel + ys.length + 1) + 1 := by omega
      rw [e, doSpell_selection hnode]
      simp only [hnot, if_false]
      rw [spell_of_none hhi]
      exact hih.2 (fun a ha => hall a (List.mem_cons_of_mem _ ha)) fuel


/-! ## The English grammar -/

theorem english_locals :
    english = EnglishLocals.mk 0 20 39 54 58 62 63 67 71 75 78 83 := by decide!

theorem englishSpeller_eq : englishSpeller = 83 := by decide!

theorem englishHeap_length : englishHeap.length = 84 := by decide!

theorem english_hundreds_small :
    ∀ k < 4, ∀ neg : Bool, ∀ h < 10,
      doSpell englishHeap 14 62 ⟨h, neg, englishOverlay k⟩ = some (triadH h) := by
  decide!

theorem english_tensAndUnits_small :
    ∀ k < 4, ∀ neg : Bool, ∀ r < 100,
      doSpell englishHeap 14 58 ⟨r, neg, englishOverlay k⟩
        = some (triadR r ++ englishSuffix k) := by
  decide!

theorem englishOverlay_inner :
    ∀ k < 4, ∀ q : Nat, 0 < q → q < 64 → englishOverlay k q = none := by
  intro k hk q hq _
  have hq0 : q ≠ 0 := by omega
  interval_cases k <;> simp [englishOverlay, SpellerPtrMap.assign, SpellerPtrMap.empty, hq0]

theorem english_triad_text (k : Nat) (hk : k < 4) (neg : Bool) (t : Nat) (ht : t < 1000)
    (fuel : Nat) (hfuel : 15 ≤ fuel) :
    doSpell englishHeap fuel 63 ⟨t, neg, englishOverlay k⟩
      = some (triadReference t ++ englishSuffix k) := by
  obtain ⟨f, rfl⟩ : ∃ f, fuel = f + 1 := ⟨fuel - 1, by omega⟩
  have hnode : englishHeap[63]? = some (ISpeller.PositionSplitSpeller 2 58 62 false) := by decide!
  have h1 := doSpell_mono englishHeap 14 f 62 ⟨t / 100, neg, englishOverlay k⟩ _ (by omega)
    (english_hundreds_small k hk neg (t / 100) (by omega))
  have h2 := doSpell_mono englishHeap 14 f 58 ⟨t % 100, neg, englishOverlay k⟩ _ (by omega)
    (english_tensAndUnits_small k hk neg (t % 100) (by omega))
  have h := doSpell_split_direct hnode f t neg (englishOverlay k) divider_two (by decide)
    (englishOverlay_inner k hk 62 (by decide) (by decide))
    (englishOverlay_inner k hk 58 (by decide) (by decide)) h1 h2
  rw [h]
  simp [triadReference, String.append_assoc]

theorem english_group_text (sel nul sub w k : Nat) (W : String)
    (hsel : englishHeap[sel]? = some (ISpeller.SelectionSpeller 0 nul sub))
    (hnul : englishHeap[nul]? = some ISpeller.NullSpeller)
    (hsub : englishHeap[sub]? = some (ISpeller.SubstituteSpeller 0 w 63))
    (hk : k < 4) (hov : englishOverlay k = SpellerPtrMap.empty.assign 0 w)
    (hW : englishSuffix k = W ++ " ")
    (neg : Bool) (g : Nat) (hg : g < 1000) (fuel : Nat) (hfuel : 17 ≤ fuel) :
    doSpell englishHeap fuel sel ⟨g, neg, SpellerPtrMap.empty⟩
      = some (groupText triadReference g W) := by
  obtain ⟨f, rfl⟩ : ∃ f, fuel = f + 2 := ⟨fuel - 2, by omega⟩
  rw [doSpell_selection hsel]
  by_cases h0 : g = 0
  · subst h0
    simp only [Nat.le_refl, if_true]
    rw [spell_of_none (by rfl), doSpell_null hnul]
    simp [groupText]
  · have hne : ¬ g ≤ 0 := by omega
    simp only [hne, if_false]
    rw [spell_of_none (by rfl), doSpell_substitute hsub]
    have hov63 : (SpellerPtrMap.empty.assign 0 w) 63 = none := by
      simp [SpellerPtrMap.assign, SpellerPtrMap.empty]
    rw [spell_of_none (by simpa [SpellerInput.addSubstitute] using hov63)]
    have := english_triad_text k hk neg g hg f (by omega)
    rw [hov, hW] at this
    simp only [SpellerInput.addSubstitute]
    rw [this]
    simp [groupText, h0, String.append_assoc]

theorem english_positive_text (neg : Bool) (m : Nat) (hm : m < 10 ^ 12)
    (fuel : Nat) (hfuel : 20 ≤ fuel) :
    doSpell englishHeap fuel 78 ⟨m, neg, SpellerPtrMap.empty⟩
      = some (englishGroups triadReference m) := by
  obtain ⟨f, rfl⟩ : ∃ f, fuel = f + 3 := ⟨fuel - 3, by omega⟩
  have e : ∀ q : Nat, SpellerPtrMap.empty q = none := fun _ => rfl
  have hB := english_group_text 75 72 74 73 3 "Billion" (by decide!) (by decide!) (by decide!) (by decide) rfl (by decide)
    neg (m / 1000 / 1000 / 1000) (by omega) f (by omega)
  have hM := english_group_text 71 68 70 69 2 "Million" (by decide!) (by decide!) (by decide!) (by decide) rfl (by decide)
    neg (m / 1000 / 1000 % 1000) (by omega) f (by omega)
  have hT := english_group_text 67 64 66 65 1 "Thousand" (by decide!) (by decide!) (by decide!) (by decide) rfl (by decide)
    neg (m / 1000 % 1000) (by omega) (f + 1) (by omega)
  have hU := english_triad_text 0 (by decide) neg (m % 1000) (by omega) (f + 2) (by omega)
  have n76 : englishHeap[76]? = some (ISpeller.PositionSplitSpeller 3 71 75 false) := by decide!
  have n77 : englishHeap[77]? = some (ISpeller.PositionSplitSpeller 3 67 76 false) := by decide!
  have n78 : englishHeap[78]? = some (ISpeller.PositionSplitSpeller 3 63 77 false) := by decide!
  have h76 := doSpell_split_direct n76 f (m / 1000 / 1000) neg SpellerPtrMap.empty
    divider_three (by decide) rfl rfl hB hM
  simp only [Bool.false_eq_true, if_false] at h76
  have h77 := doSpell_split_direct n77 (f + 1) (m / 1000) neg SpellerPtrMap.empty
    divider_three (by decide) rfl rfl h76 hT
  simp only [Bool.false_eq_true, if_false] at h77
  have h78 := doSpell_split_direct n78 (f + 2) m neg SpellerPtrMap.empty
    divider_three (by decide) rfl rfl h77 hU
  simp only [Bool.false_eq_true, if_false] at h78
  rw [h78]
  have d1 : m / 1000 / 1000 / 1000 = m / 10 ^ 9 := by omega
  have d2 : m / 1000 / 1000 = m / 10 ^ 6 := by omega
  have d3 : triadReference (m % 1000) ++ englishSuffix 0 = triadReference (m % 1000) := by
    simp [englishSuffix]
  rw [d1, d2, d3]
  rfl

theorem english_text_nonneg (m : Nat) (h1 : 1 ≤ m) (hm : m < 10 ^ 12)
    (fuel : Nat) (hfuel : 22 ≤ fuel) :
    doSpell englishHeap fuel 83 ⟨m, false, SpellerPtrMap.empty⟩
      = some (englishGroups triadReference m) := by
  obtain ⟨f, rfl⟩ : ∃ f, fuel = f + 2 := ⟨fuel - 2, by omega⟩
  have n83 : englishHeap[83]? = some (ISpeller.SignSpeller 80 82) := by decide!
  have n80 : englishHeap[80]? = some (ISpeller.SelectionSpeller 0 79 78) := by decide!
  rw [doSpell_sign n83]
  simp only [Bool.false_eq_true, if_false]
  rw [spell_of_none (by rfl), doSpell_selection n80]
  have hne : ¬ m ≤ 0 := by omega
  simp only [hne, if_false]
  rw [spell_of_none (by rfl)]
  exact english_positive_text false m hm f (by omega)

theorem english_text_neg (m : Nat) (hm : m < 10 ^ 12)
    (fuel : Nat) (hfuel : 22 ≤ fuel) :
    doSpell englishHeap fuel 83 ⟨m, true, SpellerPtrMap.empty⟩
      = some ("Minus " ++ englishGroups triadReference m) := by
  obtain ⟨f, rfl⟩ : ∃ f, fuel = f + 2 := ⟨fuel - 2, by omega⟩
  have n83 : englishHeap[83]? = some (ISpeller.SignSpeller 80 82) := by decide!
  have n82 : englishHeap[82]? = some (ISpeller.SequentialSpeller 81 78) := by decide!
  have n81 : englishHeap[81]? = some (ISpeller.StringSpeller "Minus") := by decide!
  rw [doSpell_sign n83]
  simp only [if_true]
  rw [spell_of_none (by rfl)]
  obtain ⟨g, rfl⟩ : ∃ g, f = g + 1 := ⟨f - 1, by omega⟩
  have hw : "Minus" ++ " " = "Minus " := by decide
  have hfirst : SpellerInput.spell (doSpell englishHeap (g + 1))
      ⟨m, true, SpellerPtrMap.empty⟩ 81 = some "Minus " := by
    rw [spell_of_none (by rfl), doSpell_string n81, hw]
  have hsecond : SpellerInput.spell (doSpell englishHeap (g + 1))
      ⟨m, true, SpellerPtrMap.empty⟩ 78 = some (englishGroups triadReference m) := by
    rw [spell_of_none (by rfl)]
    exact english_positive_text true m hm (g + 1) (by omega)
  exact doSpell_sequential n82 (g + 1) ⟨m, true, SpellerPtrMap.empty⟩ hfirst hsecond

theorem english_text_zero (fuel : Nat) (hfuel : 3 ≤ fuel) :
    doSpell englishHeap fuel 83 ⟨0, false, SpellerPtrMap.empty⟩ = some "Zero " := by
  obtain ⟨f, rfl⟩ : ∃ f, fuel = f + 3 := ⟨fuel - 3, by omega⟩
  have n83 : englishHeap[83]? = some (ISpeller.SignSpeller 80 82) := by decide!
  have n80 : englishHeap[80]? = some (ISpeller.SelectionSpeller 0 79 78) := by decide!
  have n79 : englishHeap[79]? = some (ISpeller.StringSpeller "Zero") := by decide!
  rw [doSpell_sign n83]
  simp only [Bool.false_eq_true, if_false]
  rw [spell_of_none (by rfl), doSpell_selection n80]
  simp only [Nat.le_refl, if_true]
  rw [spell_of_none (by rfl), doSpell_string n79]
  rfl

/-! ## The constructor `SpellerInput(int)` -/

theorem abs_of_gt_min (v : Int) (hlo : -2 ^ 31 < v) (hhi : v < 2 ^ 31) :
    toULL (abs v) = v.natAbs := by
  unfold toULL abs wrapInt32 ULLONG_MOD
  split <;> omega

theorem ofInt_of_gt_min (v : Int) (hlo : -2 ^ 31 < v) (hhi : v < 2 ^ 31) :
    SpellerInput.ofInt v = ⟨v.natAbs, decide (v < 0), SpellerPtrMap.empty⟩ := by
  simp [SpellerInput.ofInt, abs_of_gt_min v hlo hhi]

/-! ## The Russian grammar -/

theorem russian_locals :
    russian = RussianLocals.mk 0 1 2 3 4 13 25 44 59 63 82 83 95 103 111 114 119 := by
  decide!

theorem russianSpeller_eq : russianSpeller = 119 := by decide!

theorem russianHeap_length : russianHeap.length = 120 := by decide!

theorem russian_hundreds_small :
    ∀ k < 4, ∀ neg : Bool, ∀ h < 10,
      doSpell russianHeap 12 82 ⟨h, neg, russianOverlay k⟩ = some (ruHundreds h) := by
  decide!

theorem russian_tensAndUnits_small :
    ∀ k < 4, ∀ neg : Bool, ∀ r < 100,
      doSpell russianHeap 16 63 ⟨r, neg, russianOverlay k⟩ = some (ruTensAndUnits k r) := by
  decide!

theorem russianOverlay_inner :
    ∀ k < 4, ∀ q : Nat, 4 < q → russianOverlay k q = none := by
  intro k hk q hq
  have h0 : q ≠ 0 := by omega
  have h1 : q ≠ 1 := by omega
  have h2 : q ≠ 2 := by omega
  have h3 : q ≠ 3 := by omega
  have h4 : q ≠ 4 := by omega
  interval_cases k <;>
    simp [russianOverlay, SpellerPtrMap.assign, SpellerPtrMap.empty, h0, h1, h2, h3, h4]

theorem russian_triad_text (k : Nat) (hk : k < 4) (neg : Bool) (t : Nat) (ht : t < 1000)
    (fuel : Nat) (hfuel : 17 ≤ fuel) :
    doSpell russianHeap fuel 83 ⟨t, neg, russianOverlay k⟩ = some (ruTriad k t) := by
  obtain ⟨f, rfl⟩ : ∃ f, fuel = f + 1 := ⟨fuel - 1, by omega⟩
  have hnode : russianHeap[83]? = some (ISpeller.PositionSplitSpeller 2 63 82 false) := by decide!
  have h1 := doSpell_mono russianHeap 12 f 82 ⟨t / 100, neg, russianOverlay k⟩ _ (by omega)
    (russian_hundreds_small k hk neg (t / 100) (by omega))
  have h2 := doSpell_mono russianHeap 16 f 63 ⟨t % 100, neg, russianOverlay k⟩ _ (by omega)
    (russian_tensAndUnits_small k hk neg (t % 100) (by omega))
  have h := doSpell_split_direct hnode f t neg (russianOverlay k) divider_two (by decide)
    (russianOverlay_inner k hk 82 (by decide)) (russianOverlay_inner k hk 63 (by decide))
    h1 h2
  rw [h]
  simp [ruTriad]

theorem russian_thousands_text (neg : Bool) (g : Nat) (hg : g < 1000)
    (fuel : Nat) (hfuel : 23 ≤ fuel) :
    doSpell russianHeap fuel 95 ⟨g, neg, SpellerPtrMap.empty⟩ = some (ruGroup 1 g) := by
  obtain ⟨f, rfl⟩ : ∃ f, fuel = f + 6 := ⟨fuel - 6, by omega⟩
  have n95 : russianHeap[95]? = some (ISpeller.SelectionSpeller 0 84 94) := by decide!
  by_cases h0 : g = 0
  · subst h0
    have n84 : russianHeap[84]? = some ISpeller.NullSpeller := by decide!
    rw [doSpell_selection_le n95 _ _ _ _ (Nat.le_refl 0) rfl, doSpell_null n84]
    rfl
  · have n94 : russianHeap[94]? = some (ISpeller.SubstituteSpeller 0 85 93) := by decide!
    have n93 : russianHeap[93]? = some (ISpeller.SubstituteSpeller 1 86 92) := by decide!
    have n92 : russianHeap[92]? = some (ISpeller.SubstituteSpeller 2 87 91) := by decide!
    have n91 : russianHeap[91]? = some (ISpeller.SubstituteSpeller 3 88 90) := by decide!
    have n90 : russianHeap[90]? = some (ISpeller.SubstituteSpeller 4 89 83) := by decide!
    rw [doSpell_selection_gt n95 _ _ _ _ (by omega) rfl,
      doSpell_substitute_direct n94 _ _ _ _ (by decide),
      doSpell_substitute_direct n93 _ _ _ _ (by decide),
      doSpell_substitute_direct n92 _ _ _ _ (by decide),
      doSpell_substitute_direct n91 _ _ _ _ (by decide),
      doSpell_substitute_direct n90 _ _ _ _ (by decide)]
    have := russian_triad_text 1 (by decide) neg g hg f (by omega)
    simp only [russianOverlay] at this
    rw [this]
    simp [ruGroup, h0]

theorem russian_group_text (sel nul s1 s2 s3 w1 w2 w3 k : Nat)
    (hsel : russianHeap[sel]? = some (ISpeller.SelectionSpeller 0 nul s1))
    (hnul : russianHeap[nul]? = some ISpeller.NullSpeller)
    (h1 : russianHeap[s1]? = some (ISpeller.SubstituteSpeller 2 w1 s2))
    (h2 : russianHeap[s2]? = some (ISpeller.SubstituteSpeller 3 w2 s3))
    (h3 : russianHeap[s3]? = some (ISpeller.SubstituteSpeller 4 w3 83))
    (hs2 : 4 < s2) (hs3 : 4 < s3)
    (hk : k < 4)
    (hov : russianOverlay k = ((SpellerPtrMap.empty.assign 2 w1).assign 3 w2).assign 4 w3)
    (neg : Bool) (g : Nat) (hg : g < 1000) (fuel : Nat) (hfuel : 21 ≤ fuel) :
    doSpell russianHeap fuel sel ⟨g, neg, SpellerPtrMap.empty⟩ = some (ruGroup k g) := by
  obtain ⟨f, rfl⟩ : ∃ f, fuel = f + 4 := ⟨fuel - 4, by omega⟩
  by_cases h0 : g = 0
  · subst h0
    rw [doSpell_selection_le hsel _ _ _ _ (Nat.le_refl 0) rfl, doSpell_null hnul]
    rfl
  · have a2 : s2 ≠ 2 := by omega
    have a3 : s3 ≠ 2 := by omega
    have b3 : s3 ≠ 3 := by omega
    rw [doSpell_selection_gt hsel _ _ _ _ (by omega) rfl,
      doSpell_substitute_direct h1 _ _ _ _
        (by simp [SpellerPtrMap.assign, SpellerPtrMap.empty, a2]),
      doSpell_substitute_direct h2 _ _ _ _
        (by simp [SpellerPtrMap.assign, SpellerPtrMap.empty, a3, b3]),
      doSpell_substitute_direct h3 _ _ _ _
        (by simp [SpellerPtrMap.assign, SpellerPtrMap.empty])]
    have := russian_triad_text k hk neg g hg f (by omega)
    rw [hov] at this
    rw [this]
    simp [ruGroup, h0]

theorem russian_positive_text (neg : Bool) (m : Nat) (hm : m < 10 ^ 12)
    (fuel : Nat) (hfuel : 26 ≤ fuel) :
    doSpell russianHeap fuel 114 ⟨m, neg, SpellerPtrMap.empty⟩ = some (russianGroups m) := by
  obtain ⟨f, rfl⟩ : ∃ f, fuel = f + 3 := ⟨fuel - 3, by omega⟩
  have hB := russian_group_text 111 104 110 109 108 105 106 107 3
    (by decide!) (by decide!) (by decide!) (by decide!) (by decide!) (by decide) (by decide)
    (by decide) rfl neg (m / 1000 / 1000 / 1000) (by omega) f (by omega)
  have hM := russian_group_text 103 96 102 101 100 97 98 99 2
    (by decide!) (by decide!) (by decide!) (by decide!) (by decide!) (by decide) (by decide)
    (by decide) rfl neg (m / 1000 / 1000 % 1000) (by omega) f (by omega)
  have hT := russian_thousands_text neg (m / 1000 % 1000) (by omega) (f + 1) (by omega)
  have hU := russian_triad_text 0 (by decide) neg (m % 1000) (by omega) (f + 2) (by omega)
  have n112 : russianHeap[112]? = some (ISpeller.PositionSplitSpeller 3 103 111 false) := by
    decide!
  have n113 : russianHeap[113]? = some (ISpeller.PositionSplitSpeller 3 95 112 false) := by
    decide!
  have n114 : russianHeap[114]? = some (ISpeller.PositionSplitSpeller 3 83 113 false) := by
    decide!
  have h112 := doSpell_split_direct n112 f (m / 1000 / 1000) neg SpellerPtrMap.empty
    divider_three (by decide) rfl rfl hB hM
  simp only [Bool.false_eq_true, if_false] at h112
  have h113 := doSpell_split_direct n113 (f + 1) (m / 1000) neg SpellerPtrMap.empty
    divider_three (by decide) rfl rfl h112 hT
  simp only [Bool.false_eq_true, if_false] at h113
  have h114 := doSpell_split_direct n114 (f + 2) m neg SpellerPtrMap.empty
    divider_three (by decide) rfl rfl h113 hU
  simp only [Bool.false_eq_true, if_false] at h114
  rw [h114]
  have d1 : m / 1000 / 1000 / 1000 = m / 10 ^ 9 := by omega
  have d2 : m / 1000 / 1000 = m / 10 ^ 6 := by omega
  rw [d1, d2]
  rfl

theorem russian_text_nonneg (m : Nat) (h1 : 1 ≤ m) (hm : m < 10 ^ 12)
    (fuel : Nat) (hfuel : 28 ≤ fuel) :
    doSpell russianHeap fuel 119 ⟨m, false, SpellerPtrMap.empty⟩
      = some (russianGroups m) := by
  obtain ⟨f, rfl⟩ : ∃ f, fuel = f + 2 := ⟨fuel - 2, by omega⟩
  have n119 : russianHeap[119]? = some (ISpeller.SignSpeller 116 118) := by decide!
  have n116 : russianHeap[116]? = some (ISpeller.SelectionSpeller 0 115 114) := by decide!
  rw [doSpell_sign n119]
  simp only [Bool.false_eq_true, if_false]
  rw [spell_of_none (by rfl), doSpell_selection_gt n116 _ _ _ _ (by omega) rfl]
  exact russian_positive_text false m hm f (by omega)

theorem russian_text_neg (m : Nat) (hm : m < 10 ^ 12)
    (fuel : Nat) (hfuel : 28 ≤ fuel) :
    doSpell russianHeap fuel 119 ⟨m, true, SpellerPtrMap.empty⟩
      = some ("минус " ++ russianGroups m) := by
  obtain ⟨g, rfl⟩ : ∃ g, fuel = g + 3 := ⟨fuel - 3, by omega⟩
  have n119 : russianHeap[119]? = some (ISpeller.SignSpeller 116 118) := by decide!
  have n118 : russianHeap[118]? = some (ISpeller.SequentialSpeller 117 114) := by decide!
  have n117 : russianHeap[117]? = some (ISpeller.StringSpeller "минус") := by decide!
  rw [doSpell_sign n119]
  simp only [if_true]
  rw [spell_of_none (by rfl)]
  have hw : "минус" ++ " " = "минус " := by decide
  have hfirst : SpellerInput.spell (doSpell russianHeap (g + 1))
      ⟨m, true, SpellerPtrMap.empty⟩ 117 = some "минус " := by
    rw [spell_of_none (by rfl), doSpell_string n117, hw]
  have hsecond : SpellerInput.spell (doSpell russianHeap (g + 1))
      ⟨m, true, SpellerPtrMap.empty⟩ 114 = some (russianGroups m) := by
    rw [spell_of_none (by rfl)]
    exact russian_positive_text true m hm (g + 1) (by omega)
  exact doSpell_sequential n118 (g + 1) ⟨m, true, SpellerPtrMap.empty⟩ hfirst hsecond

/-! ## The entry point on `int` values -/

theorem spellEnglish_pos (n : Nat) (h1 : 1 ≤ n) (h2 : n < 2 ^ 31) :
    spellEnglish (n : Int) = some (englishGroups triadReference n) := by
  unfold spellEnglish
  rw [ofInt_of_gt_min _ (by omega) (by omega), englishSpeller_eq, englishHeap_length]
  have hd : decide ((n : Int) < 0) = false := by simp
  rw [hd, Int.natAbs_ofNat]
  exact english_text_nonneg n h1 (by omega) 84 (by decide)

theorem spellEnglish_neg (n : Nat) (h2 : n < 2 ^ 31) (h1 : 1 ≤ n) :
    spellEnglish (-(n : Int)) = some ("Minus " ++ englishGroups triadReference n) := by
  unfold spellEnglish
  rw [ofInt_of_gt_min _ (by omega) (by omega), englishSpeller_eq, englishHeap_length]
  have hd : decide (-(n : Int) < 0) = true := by simp; omega
  rw [hd, Int.natAbs_neg, Int.natAbs_ofNat]
  exact english_text_neg n (by omega) 84 (by decide)

theorem spellRussian_pos (n : Nat) (h1 : 1 ≤ n) (h2 : n < 2 ^ 31) :
    spellRussian (n : Int) = some (russianGroups n) := by
  unfold spellRussian
  rw [ofInt_of_gt_min _ (by omega) (by omega), russianSpeller_eq, russianHeap_length]
  have hd : decide ((n : Int) < 0) = false := by simp
  rw [hd, Int.natAbs_ofNat]
  exact russian_text_nonneg n h1 (by omega) 120 (by decide)

theorem spellRussian_neg (n : Nat) (h2 : n < 2 ^ 31) (h1 : 1 ≤ n) :
    spellRussian (-(n : Int)) = some ("минус " ++ russianGroups n) := by
  unfold spellRussian
  rw [ofInt_of_gt_min _ (by omega) (by omega), russianSpeller_eq, russianHeap_length]
  have hd : decide (-(n : Int) < 0) = true := by simp; omega
  rw [hd, Int.natAbs_neg, Int.natAbs_ofNat]
  exact russian_text_neg n (by omega) 120 (by decide)

/-! ## Words of a text -/

theorem getLast?_tail_of_ne {c : Char} {cs : List Char} (hne : cs ≠ []) :
    cs.getLast? = (c :: cs).getLast? := by
  cases cs with
  | nil => exact absurd rfl hne
  | cons d ds => simp

theorem splitWords_append (ys : List Char) :
    ∀ (xs cur : List Char), (xs = [] → cur = []) →
      (xs ≠ [] → xs.getLast? = some ' ') →
      splitWords (xs ++ ys) cur = splitWords xs cur ++ splitWords ys [] := by
  intro xs
  induction xs with
  | nil =>
    intro cur h1 _
    simp [h1 rfl, splitWords]
  | cons c cs ih =>
    intro cur _ h2
    have hlast := h2 (by simp)
    by_cases hc : c = ' '
    · have h := ih [] (fun _ => rfl) (fun hne => by rw [getLast?_tail_of_ne hne, hlast])
      simp only [List.cons_append, splitWords, hc, if_true]
      exact congrArg _ h
    · have hne : cs ≠ [] := by
        intro h
        subst h
        simp at hlast
        exact hc hlast
      have h := ih (cur ++ [c]) (fun h => absurd h hne)
        (fun _ => by rw [getLast?_tail_of_ne hne, hlast])
      simp only [List.cons_append, splitWords, hc, if_false]
      exact h

theorem wordsOf_append (a b : String) (ha : Terminated a) :
    wordsOf (a ++ b) = wordsOf a ++ wordsOf b := by
  unfold wordsOf
  rw [String.data_append]
  apply splitWords_append
  · intro _; rfl
  · intro hne
    rcases ha with h | h
    · exact absurd h hne
    · exact h

/-! ## Words of the Russian closed forms -/

theorem ruHundreds_terminated : ∀ h < 10, Terminated (ruHundreds h) := by decide!

theorem ruHundreds_words :
    ∀ h < 10, "один" ∉ wordsOf (ruHundreds h) ∧ "два" ∉ wordsOf (ruHundreds h)
      ∧ "одна" ∉ wordsOf (ruHundreds h) ∧ "две" ∉ wordsOf (ruHundreds h) := by
  decide!

theorem ruTensAndUnits_words_feminine :
    ∀ r < 100, "один" ∉ wordsOf (ruTensAndUnits 1 r)
      ∧ "два" ∉ wordsOf (ruTensAndUnits 1 r) := by
  decide!

theorem ruTensAndUnits_words_masculine :
    ∀ r < 100, ("одна" ∉ wordsOf (ruTensAndUnits 0 r)
        ∧ "две" ∉ wordsOf (ruTensAndUnits 0 r))
      ∧ ("одна" ∉ wordsOf (ruTensAndUnits 2 r)
        ∧ "две" ∉ wordsOf (ruTensAndUnits 2 r)) := by
  decide!

theorem ruTriad_words (k t : Nat) (ht : t < 1000) :
    wordsOf (ruTriad k t)
      = wordsOf (ruHundreds (t / 100)) ++ wordsOf (ruTensAndUnits k (t % 100)) := by
  unfold ruTriad
  exact wordsOf_append _ _ (ruHundreds_terminated (t / 100) (by omega))

theorem russianGroups_thousands (k : Nat) (h1 : 1 ≤ k) (h2 : k ≤ 999) :
    russianGroups (1000 * k) = ruTriad 1 k := by
  have a : 1000 * k / 10 ^ 9 = 0 := by omega
  have b : 1000 * k / 10 ^ 6 % 1000 = 0 := by omega
  have c : 1000 * k / 1000 % 1000 = k := by omega
  have d : 1000 * k % 1000 = 0 := by omega
  have hk : k ≠ 0 := by omega
  have e : ruTriad 0 0 = "" := by decide
  unfold russianGroups
  rw [a, b, c, d, e]
  simp [ruGroup, hk]

theorem russianGroups_units (k : Nat) (h2 : k ≤ 999) :
    russianGroups k = ruTriad 0 k := by
  have a : k / 10 ^ 9 = 0 := by omega
  have b : k / 10 ^ 6 % 1000 = 0 := by omega
  have c : k / 1000 % 1000 = 0 := by omega
  have d : k % 1000 = k := by omega
  unfold russianGroups
  rw [a, b, c, d]
  simp [ruGroup]

theorem russianGroups_millions (k : Nat) (h1 : 1 ≤ k) (h2 : k ≤ 999) :
    russianGroups (1000000 * k) = ruTriad 2 k := by
  have a : 1000000 * k / 10 ^ 9 = 0 := by omega
  have b : 1000000 * k / 10 ^ 6 % 1000 = k := by omega
  have c : 1000000 * k / 1000 % 1000 = 0 := by omega
  have d : 1000000 * k % 1000 = 0 := by omega
  have hk : k ≠ 0 := by omega
  have e : ruTriad 0 0 = "" := by decide
  unfold russianGroups
  rw [a, b, c, d, e]
  simp [ruGroup, hk]

theorem englishTriadText_eq (t : Nat) (ht : t < 1000) :
    englishTriadText t = triadReference t := by
  unfold englishTriadText
  rw [english_locals, englishHeap_length]
  have := english_triad_text 0 (by decide) false t ht 84 (by decide)
  simp only [englishOverlay, englishSuffix] at this
  rw [this]
  simp

/-! ## The claims -/

/-- C1: the English grammar built by `getEnglishSpeller` spells 0 as "Zero ",
1 as "One ", 15 as "Fifteen ", 21 as "Twenty One ", 100 as "One Hundred ",
1000 as "One Thousand " and -5 as "Minus Five ". -/
theorem C1_english_scenarios :
    spellEnglish 0 = some "Zero " ∧ spellEnglish 1 = some "One "
      ∧ spellEnglish 15 = some "Fifteen " ∧ spellEnglish 21 = some "Twenty One "
      ∧ spellEnglish 100 = some "One Hundred " ∧ spellEnglish 1000 = some "One Thousand "
      ∧ spellEnglish (-5) = some "Minus Five " := by
  decide!

/-- C2: for a non-negative context with empty overlay and magnitude `m`,
`1 ≤ m < 10^12`, the English speller returns the digit-group decomposition
`G(m / 10^9, Billion) ++ G(m / 10^6 mod 1000, Million) ++
G(m / 1000 mod 1000, Thousand) ++ T(m mod 1000)`, where `T(t)` is what the triad
node returns for `t` under the empty overlay; 1000000 is "One Million " and
100000 is "One Hundred Thousand ".  The budget is any number not below the
size of the grammar. -/
theorem C2_english_digit_groups (m : Nat) (h1 : 1 ≤ m) (hm : m < 10 ^ 12)
    (fuel : Nat) (hfuel : englishHeap.length ≤ fuel) :
    doSpell englishHeap fuel englishSpeller ⟨m, false, SpellerPtrMap.empty⟩
        = some (englishGroups englishTriadText m)
      ∧ (∀ t, t ≤ 999 →
          doSpell englishHeap fuel english.triad ⟨t, false, SpellerPtrMap.empty⟩
            = some (englishTriadText t))
      ∧ spellEnglish 1000000 = some "One Million "
      ∧ spellEnglish 100000 = some "One Hundred Thousand " := by
  rw [englishHeap_length] at hfuel
  have hT : ∀ t, t < 1000 → englishTriadText t = triadReference t :=
    fun t ht => englishTriadText_eq t ht
  have hG : englishGroups englishTriadText m = englishGroups triadReference m := by
    unfold englishGroups groupText
    rw [hT (m / 10 ^ 9) (by omega), hT (m / 10 ^ 6 % 1000) (by omega),
      hT (m / 1000 % 1000) (by omega), hT (m % 1000) (by omega)]
  refine ⟨?_, ?_, by decide!, by decide!⟩
  · rw [hG, englishSpeller_eq]
    exact english_text_nonneg m h1 hm fuel (by omega)
  · intro t ht
    rw [hT t (by omega), english_locals]
    have := english_triad_text 0 (by decide) false t (by omega) fuel (by omega)
    simpa [englishOverlay, englishSuffix] using this

/-- C2 at the magnitude 1234567 with the budget 84. -/
theorem C2_english_digit_groups_witness :
    (1 ≤ 1234567 ∧ 1234567 < 10 ^ 12 ∧ englishHeap.length ≤ 84)
      ∧ doSpell englishHeap 84 englishSpeller ⟨1234567, false, SpellerPtrMap.empty⟩
        = some (englishGroups englishTriadText 1234567) :=
  ⟨⟨by decide, by decide, by decide!⟩,
    (C2_english_digit_groups 1234567 (by decide) (by decide) 84 (by decide!)).1⟩

/-- C3: for `0 ≤ t ≤ 999` the English triad node under the empty overlay
returns `H ++ R`, the reference text of the triad, whatever the sign flag. -/
theorem C3_english_triad_reference (t : Nat) (ht : t ≤ 999) (neg : Bool)
    (fuel : Nat) (hfuel : englishHeap.length ≤ fuel) :
    doSpell englishHeap fuel english.triad ⟨t, neg, SpellerPtrMap.empty⟩
      = some (triadReference t) := by
  rw [englishHeap_length] at hfuel
  rw [english_locals]
  have := english_triad_text 0 (by decide) neg t (by omega) fuel (by omega)
  simpa [englishOverlay, englishSuffix] using this

/-- C3 at the triad value 342 with the budget 84. -/
theorem C3_english_triad_reference_witness :
    (342 ≤ 999 ∧ englishHeap.length ≤ 84)
      ∧ doSpell englishHeap 84 english.triad ⟨342, false, SpellerPtrMap.empty⟩
        = some "Three Hundred Forty Two " :=
  ⟨⟨by decide, by decide!⟩,
    C3_english_triad_reference 342 (by decide) false 84 (by decide!)⟩

/-- C4: for `1 ≤ n ≤ 2^31 - 1` the English spelling of `-n` is "Minus "
followed by the English spelling of `n`, the Russian spelling of `-n` is
"минус " followed by the Russian spelling of `n`, and a `SignSpeller` node
spells its negative branch when the flag of the context is set and its
non-negative branch otherwise. -/
theorem C4_sign_handling (n : Int) (h1 : 1 ≤ n) (h2 : n ≤ 2 ^ 31 - 1) :
    (∃ s, spellEnglish n = some s ∧ spellEnglish (-n) = some ("Minus " ++ s))
      ∧ (∃ s, spellRussian n = some s ∧ spellRussian (-n) = some ("минус " ++ s))
      ∧ (∀ (heap : Heap) (self m_higher m_lower : SpellerPtr) (fuel : Nat)
          (input : SpellerInput),
          heap[self]? = some (ISpeller.SignSpeller m_higher m_lower) →
          doSpell heap (fuel + 1) self input
            = if input.isNegative = true then input.spell (doSpell heap fuel) m_lower
              else input.spell (doSpell heap fuel) m_higher) := by
  obtain ⟨k, rfl⟩ : ∃ k : Nat, n = (k : Int) := ⟨n.toNat, by omega⟩
  have hk1 : 1 ≤ k := by omega
  have hk2 : k < 2 ^ 31 := by omega
  refine ⟨⟨_, spellEnglish_pos k hk1 hk2, spellEnglish_neg k hk2 hk1⟩,
    ⟨_, spellRussian_pos k hk1 hk2, spellRussian_neg k hk2 hk1⟩, ?_⟩
  intro heap self m_higher m_lower fuel input h
  exact doSpell_sign h fuel input

/-- C4 at `n = 2147483647`, the largest `int`. -/
theorem C4_sign_handling_witness :
    ((1 : Int) ≤ 2147483647 ∧ (2147483647 : Int) ≤ 2 ^ 31 - 1)
      ∧ (∃ s, spellEnglish 2147483647 = some s
          ∧ spellEnglish (-2147483647) = some ("Minus " ++ s)) :=
  ⟨⟨by decide, by decide⟩, (C4_sign_handling 2147483647 (by decide) (by decide)).1⟩

/-- C5: the Russian grammar spells 1000 with the multiplier form "тысяча",
2000 with "тысячи" and 5000 with "тысяч"; the multiplier is the last word of
the output and no other form of the word occurs in it. -/
theorem C5_russian_agreement_scenarios :
    (spellRussian 1000 = some "одна тысяча "
        ∧ wordsOf "одна тысяча " = ["одна", "тысяча"])
      ∧ (spellRussian 2000 = some "две тысячи "
        ∧ wordsOf "две тысячи " = ["две", "тысячи"])
      ∧ (spellRussian 5000 = some "пять тысяч "
        ∧ wordsOf "пять тысяч " = ["пять", "тысяч"]) := by
  decide!

/-- C6: for `1 ≤ k ≤ 999` the Russian spelling of `1000 * k` has neither the
word "один" nor the word "два", and the spellings of `k` and of `1000000 * k`
have neither the word "одна" nor the word "две"; 1001001 is spelled
"один миллион одна тысяча один ". -/
theorem C6_russian_gender_agreement (k : Nat) (h1 : 1 ≤ k) (h2 : k ≤ 999) :
    (∃ s, spellRussian ((1000 * k : Nat) : Int) = some s
        ∧ "один" ∉ wordsOf s ∧ "два" ∉ wordsOf s)
      ∧ (∃ s, spellRussian (k : Int) = some s ∧ "одна" ∉ wordsOf s ∧ "две" ∉ wordsOf s)
      ∧ (∃ s, spellRussian ((1000000 * k : Nat) : Int) = some s
        ∧ "одна" ∉ wordsOf s ∧ "две" ∉ wordsOf s)
      ∧ spellRussian 1001001 = some "один миллион одна тысяча один " := by
  have hH := ruHundreds_words (k / 100) (by omega)
  have hF := ruTensAndUnits_words_feminine (k % 100) (by omega)
  have hM := ruTensAndUnits_words_masculine (k % 100) (by omega)
  refine ⟨⟨_, spellRussian_pos (1000 * k) (by omega) (by omega), ?_, ?_⟩,
    ⟨_, spellRussian_pos k h1 (by omega), ?_, ?_⟩,
    ⟨_, spellRussian_pos (1000000 * k) (by omega) (by omega), ?_, ?_⟩, by decide!⟩
  · rw [russianGroups_thousands k h1 h2, ruTriad_words 1 k (by omega), List.mem_append]
    exact fun h => h.elim hH.1 hF.1
  · rw [russianGroups_thousands k h1 h2, ruTriad_words 1 k (by omega), List.mem_append]
    exact fun h => h.elim hH.2.1 hF.2
  · rw [russianGroups_units k h2, ruTriad_words 0 k (by omega), List.mem_append]
    exact fun h => h.elim hH.2.2.1 hM.1.1
  · rw [russianGroups_units k h2, ruTriad_words 0 k (by omega), List.mem_append]
    exact fun h => h.elim hH.2.2.2 hM.1.2
  · rw [russianGroups_millions k h1 h2, ruTriad_words 2 k (by omega), List.mem_append]
    exact fun h => h.elim hH.2.2.1 hM.2.1
  · rw [russianGroups_millions k h1 h2, ruTriad_words 2 k (by omega), List.mem_append]
    exact fun h => h.elim hH.2.2.2 hM.2.2

/-- C6 at `k = 21`: 21000 is spelled with the feminine "одна". -/
theorem C6_russian_gender_agreement_witness :
    (1 ≤ 21 ∧ 21 ≤ 999)
      ∧ (∃ s, spellRussian ((1000 * 21 : Nat) : Int) = some s
        ∧ "один" ∉ wordsOf s ∧ "два" ∉ wordsOf s) :=
  ⟨⟨by decide, by decide⟩, (C6_russian_gender_agreement 21 (by decide) (by decide)).1⟩

/-- C7 at the most negative `int`: the constructor `SpellerInput(int)` stores
the magnitude 18446744071562067968, not the absolute value 2147483648; the sign
flag is set and the substitution map is empty. -/
theorem C7_root_context_at_int_min :
    (SpellerInput.ofInt (-2147483648)).m_number = 18446744071562067968
      ∧ (SpellerInput.ofInt (-2147483648)).m_number ≠ (-2147483648 : Int).natAbs
      ∧ (SpellerInput.ofInt (-2147483648)).m_negative = true := by
  decide

/-- C8: a ladder built by `select` from the pairs `(t1, node_1), ..., (tn, node_n)`
with strictly increasing thresholds and a default node spells a context `c` as
`c` evaluates `node_i` for the smallest `ti` with magnitude `≤ ti`, and as `c`
evaluates the default node when the magnitude exceeds every threshold.  The
ladder takes `i + 1` steps of budget to reach `node_i`.  The rungs below the
top are allocated by `select` and held by no other node, so they are no keys
of the substitution map of `c`. -/
theorem C8_ladder_routing (heap : Heap) (t : Nat) (p : SpellerPtr)
    (xs : List (Nat × SpellerPtr)) (last : SpellerPtr) (c : SpellerInput) (fuel : Nat)
    (hsorted : ((t, p) :: xs).Pairwise (fun a b => a.1 < b.1))
    (hinner : ∀ q : Nat, heap.length ≤ q → q < heap.length + xs.length →
      c.m_substitutes q = none) :
    (∀ (i ti : Nat) (pi : SpellerPtr), ((t, p) :: xs)[i]? = some (ti, pi) →
        c.m_number ≤ ti → (∀ a ∈ (t, p) :: xs, c.m_number ≤ a.1 → ti ≤ a.1) →
        doSpell (select ((t, p) :: xs) last heap).2 (fuel + i + 1)
            (select ((t, p) :: xs) last heap).1 c
          = c.spell (doSpell (select ((t, p) :: xs) last heap).2 fuel) pi)
      ∧ ((∀ a ∈ (t, p) :: xs, a.1 < c.m_number) →
        doSpell (select ((t, p) :: xs) last heap).2 (fuel + xs.length + 1)
            (select ((t, p) :: xs) last heap).1 c
          = c.spell (doSpell (select ((t, p) :: xs) last heap).2 fuel) last) := by
  have h := ladder_route (select ((t, p) :: xs) last heap).2 c heap last xs t p
    (List.prefix_refl _) hinner
  refine ⟨?_, fun hall => h.2 hall fuel⟩
  intro i ti pi hi hle hmin
  apply h.1 i ti pi fuel hi hle
  intro j tj pj hj hjs
  by_contra hcon
  have hle2 : c.m_number ≤ tj := by omega
  obtain ⟨hi1, hi2⟩ := List.getElem?_eq_some.mp hi
  obtain ⟨hj1, hj2⟩ := List.getElem?_eq_some.mp hjs
  have hmem : (tj, pj) ∈ (t, p) :: xs := by rw [← hj2]; exact List.getElem_mem _
  have h1 := hmin (tj, pj) hmem hle2
  have h2 := List.pairwise_iff_getElem.mp hsorted j i hj1 hi1 hj
  rw [hi2, hj2] at h2
  simp at h1 h2
  omega

/-- C8 on the ladder `select(1, A, 5, B, Z)` at magnitude 3: routed to "B". -/
theorem C8_ladder_routing_witness :
    ([(1, 0), (5, 1)] : List (Nat × SpellerPtr)).Pairwise (fun a b => a.1 < b.1)
      ∧ (doSpell (select [(1, 0), (5, 1)] 2 wordHeap).2 3
            (select [(1, 0), (5, 1)] 2 wordHeap).1 ⟨3, false, SpellerPtrMap.empty⟩
          = SpellerInput.spell (doSpell (select [(1, 0), (5, 1)] 2 wordHeap).2 1)
              ⟨3, false, SpellerPtrMap.empty⟩ 1)
      ∧ SpellerInput.spell (doSpell (select [(1, 0), (5, 1)] 2 wordHeap).2 1)
              ⟨3, false, SpellerPtrMap.empty⟩ 1 = some "B " :=
  ⟨by decide,
    (C8_ladder_routing wordHeap 1 0 [(5, 1)] 2 ⟨3, false, SpellerPtrMap.empty⟩ 1
      (by decide) (fun _ _ _ => rfl)).1 1 5 1 rfl (by decide) (by decide),
    by decide⟩

/-- C9: `SpellerInput::spell` of a node that is a key of the substitution map
is `doSpell` of the mapped node on the same input; of a node that is no key it
is `doSpell` of the node itself on the input. -/
theorem C9_overlay_dispatch (heap : Heap) (fuel : Nat) (c : SpellerInput) (n : SpellerPtr) :
    (∀ second, c.m_substitutes n = some second →
        c.spell (doSpell heap fuel) n = doSpell heap fuel second c)
      ∧ (c.m_substitutes n = none →
        c.spell (doSpell heap fuel) n = doSpell heap fuel n c) :=
  ⟨fun _ h => spell_of_some h, fun h => spell_of_none h⟩

/-- C9 on a map that redirects the word "A" to the word "B". -/
theorem C9_overlay_dispatch_witness :
    (SpellerPtrMap.empty.assign 0 1) 0 = some 1
      ∧ SpellerInput.spell (doSpell wordHeap 1) ⟨7, true, SpellerPtrMap.empty.assign 0 1⟩ 0
        = doSpell wordHeap 1 1 ⟨7, true, SpellerPtrMap.empty.assign 0 1⟩
      ∧ doSpell wordHeap 1 1 ⟨7, true, SpellerPtrMap.empty.assign 0 1⟩ = some "B " :=
  ⟨rfl, (C9_overlay_dispatch wordHeap 1 ⟨7, true, SpellerPtrMap.empty.assign 0 1⟩ 0).1 1 rfl,
    by decide⟩

/-- C10 fails as stated: in `scopeHeap` the sequence of the override node and
the sibling, spelled on the input whose map redirects the override node itself
to "X" (the input that the root 6 passes down for the value 7), gives "X S "
and not the text "B " of the target under the added substitution followed by
the text "S " of the sibling. -/
theorem C10_override_scoping_counterexample :
    scopeHeap[2]? = some (ISpeller.SubstituteSpeller 0 1 0)
      ∧ scopeHeap[5]? = some (ISpeller.SequentialSpeller 2 4)
      ∧ SpellerInput.spell (doSpell scopeHeap 8)
          (SpellerInput.addSubstitute ⟨7, false, SpellerPtrMap.empty.assign 2 3⟩ 0 1) 0
        = some "B "
      ∧ SpellerInput.spell (doSpell scopeHeap 8)
          ⟨7, false, SpellerPtrMap.empty.assign 2 3⟩ 4 = some "S "
      ∧ doSpell scopeHeap 8 5 ⟨7, false, SpellerPtrMap.empty.assign 2 3⟩ = some "X S "
      ∧ doSpell scopeHeap 8 6 (SpellerInput.ofInt 7) = some "X S "
      ∧ "X S " ≠ "B " ++ "S " := by
  decide

/-- C10 as amended: when the substitution map of `c` does not redirect the
override node itself, the sequence of `Override(from, to, target)` and a
sibling spells `c` as the target evaluated under `c` with `from -> to` added,
followed by the sibling evaluated under `c` itself. -/
theorem C10_override_scoping (heap : Heap) (self override m_from m_to target sibling : SpellerPtr)
    (c : SpellerInput) (fuel : Nat)
    (hseq : heap[self]? = some (ISpeller.SequentialSpeller override sibling))
    (hov : heap[override]? = some (ISpeller.SubstituteSpeller m_from m_to target))
    (hkey : c.m_substitutes override = none) :
    (∀ a b, (c.addSubstitute m_from m_to).spell (doSpell heap fuel) target = some a →
        c.spell (doSpell heap fuel) sibling = some b →
        doSpell heap (fuel + 2) self c = some (a ++ b))
      ∧ (∀ r, doSpell heap (fuel + 2) self c = some r →
        ∃ a b, r = a ++ b
          ∧ (c.addSubstitute m_from m_to).spell (doSpell heap fuel) target = some a
          ∧ c.spell (doSpell heap (fuel + 1)) sibling = some b) := by
  have hsp : ∀ (i : SpellerInput) (q : SpellerPtr) (t : String),
      i.spell (doSpell heap fuel) q = some t → i.spell (doSpell heap (fuel + 1)) q = some t := by
    intro i q t ht
    unfold SpellerInput.spell at ht ⊢
    cases hq : i.m_substitutes q with
    | none => simp only [hq] at ht ⊢; exact doSpell_mono heap _ _ _ _ _ (by omega) ht
    | some r => simp only [hq] at ht ⊢; exact doSpell_mono heap _ _ _ _ _ (by omega) ht
  have hfirst : c.spell (doSpell heap (fuel + 1)) override
      = (c.addSubstitute m_from m_to).spell (doSpell heap fuel) target := by
    rw [spell_of_none hkey, doSpell_substitute hov]
  constructor
  · intro a b ha hb
    exact doSpell_sequential hseq (fuel + 1) c (by rw [hfirst]; exact ha) (hsp _ _ _ hb)
  · intro r hr
    rw [doSpell] at hr
    simp only [hseq] at hr
    rw [hfirst] at hr
    cases ha : (c.addSubstitute m_from m_to).spell (doSpell heap fuel) target with
    | none => simp [ha] at hr
    | some a =>
      cases hb : c.spell (doSpell heap (fuel + 1)) sibling with
      | none => simp [ha, hb] at hr
      | some b =>
        simp only [ha, hb, Option.some.injEq] at hr
        exact ⟨a, b, hr.symm, rfl, rfl⟩

/-- C10 as amended, on `scopeHeap` with an empty map: "B S ". -/
theorem C10_override_scoping_witness :
    (scopeHeap[5]? = some (ISpeller.SequentialSpeller 2 4)
        ∧ scopeHeap[2]? = some (ISpeller.SubstituteSpeller 0 1 0)
        ∧ SpellerPtrMap.empty 2 = none)
      ∧ doSpell scopeHeap 3 5 ⟨7, false, SpellerPtrMap.empty⟩ = some ("B " ++ "S ") :=
  ⟨⟨by decide, by decide, rfl⟩,
    (C10_override_scoping scopeHeap 5 2 0 1 0 4 ⟨7, false, SpellerPtrMap.empty⟩ 1
      (by decide) (by decide) rfl).1 "B " "S " (by decide) (by decide)⟩

theorem dividerLoop_small : ∀ n < 20, dividerLoop n 1 = 10 ^ n := by decide

theorem divider_of_le (P : Int) (h : P ≤ 19) : divider P = 10 ^ P.toNat := by
  unfold divider
  exact dividerLoop_small _ (by omega)

/-- C11: a `PositionSplitSpeller` at position `P` with children `low` and
`high` spells a context as the text of `high` on the high slice followed by the
text of `low` on the low slice when the inversion flag is off, and in the
opposite order when it is on, whatever the magnitude: the node returns exactly
when both children do, and it returns nothing when a slice is undefined. -/
theorem C11_position_split_order (heap : Heap) (self low high : SpellerPtr) (P : Int)
    (inverse : Bool) (c : SpellerInput) (fuel : Nat)
    (hnode : heap[self]? = some (ISpeller.PositionSplitSpeller P low high inverse)) :
    (∀ cHigh cLow, c.left P = some cHigh → c.right P = some cLow →
        (∀ highText lowText, cHigh.spell (doSpell heap fuel) high = some highText →
          cLow.spell (doSpell heap fuel) low = some lowText →
          doSpell heap (fuel + 1) self c
            = some (if inverse = true then lowText ++ highText else highText ++ lowText))
        ∧ (∀ text, doSpell heap (fuel + 1) self c = some text →
          ∃ highText lowText, cHigh.spell (doSpell heap fuel) high = some highText
            ∧ cLow.spell (doSpell heap fuel) low = some lowText
            ∧ text = if inverse = true then lowText ++ highText
                else highText ++ lowText))
      ∧ (c.left P = none ∨ c.right P = none → doSpell heap (fuel + 1) self c = none) := by
  constructor
  · intro cHigh cLow hleft hright
    constructor
    · intro highText lowText h1 h2
      simp [doSpell, hnode, hleft, hright, h1, h2]
    · intro text h
      rw [doSpell] at h
      simp only [hnode, hleft, hright] at h
      cases h1 : cHigh.spell (doSpell heap fuel) high with
      | none => simp [h1] at h
      | some a =>
        cases h2 : cLow.spell (doSpell heap fuel) low with
        | none => simp [h1, h2] at h
        | some b =>
          simp only [h1, h2, Option.some.injEq] at h
          exact ⟨a, b, rfl, rfl, by rw [← h]⟩
  · intro h
    rw [doSpell]
    simp only [hnode]
    rcases h with h | h
    · simp [h]
    · cases hl : c.left P <;> simp [h]

/-- C12: for `0 ≤ P ≤ 19`, `left(P)` has magnitude `m div 10^P` and `right(P)`
has magnitude `m mod 10^P`, both keep the sign flag and the substitution map,
and the two magnitudes recombine to `m`. -/
theorem C12_slicing_arithmetic (c : SpellerInput) (P : Int) (_h0 : 0 ≤ P) (h19 : P ≤ 19) :
    c.left P = some ⟨c.m_number / 10 ^ P.toNat, c.m_negative, c.m_substitutes⟩
      ∧ c.right P = some ⟨c.m_number % 10 ^ P.toNat, c.m_negative, c.m_substitutes⟩
      ∧ c.m_number / 10 ^ P.toNat * 10 ^ P.toNat + c.m_number % 10 ^ P.toNat
          = c.m_number := by
  have hd := divider_of_le P h19
  have hpos : (10 : Nat) ^ P.toNat ≠ 0 := by positivity
  refine ⟨?_, ?_, Nat.div_add_mod' _ _⟩
  · simp [SpellerInput.left, hd, hpos]
  · simp [SpellerInput.right, hd, hpos]

/-- C13 fails as stated: at the split position 64 the divider computed in
64-bit arithmetic is 0, so `left` and `right` divide by zero; at position 20
the divider has wrapped to 7766279631452241920, which is no power of ten. -/
theorem C13_slicing_counterexample :
    divider 64 = 0
      ∧ SpellerInput.left ⟨5, false, SpellerPtrMap.empty⟩ 64 = none
      ∧ SpellerInput.right ⟨5, false, SpellerPtrMap.empty⟩ 64 = none
      ∧ divider 20 = 7766279631452241920
      ∧ (∀ n < 64, 10 ^ n ≠ 7766279631452241920) := by
  refine ⟨by decide, by rfl, by rfl, by decide, by decide⟩

/-- C13 as amended: for every context and every split position `P ≤ 19` the
divider is the positive power of ten `10^max(P, 0)`, so `left` and `right` are
defined. -/
theorem C13_slicing_defined (c : SpellerInput) (P : Int) (h19 : P ≤ 19) :
    divider P = 10 ^ P.toNat ∧ 0 < divider P
      ∧ (c.left P).isSome = true ∧ (c.right P).isSome = true := by
  have hd := divider_of_le P h19
  have hpos : 0 < (10 : Nat) ^ P.toNat := by positivity
  have hne : (10 : Nat) ^ P.toNat ≠ 0 := by omega
  refine ⟨hd, by omega, ?_, ?_⟩
  · simp [SpellerInput.left, hd, hne]
  · simp [SpellerInput.right, hd, hne]

/-- C13 as amended, at position 19 on the largest 64-bit magnitude. -/
theorem C13_slicing_defined_witness :
    ((19 : Int) ≤ 19)
      ∧ divider 19 = 10 ^ 19
      ∧ SpellerInput.left ⟨18446744073709551615, true, SpellerPtrMap.empty⟩ 19
        = some ⟨1, true, SpellerPtrMap.empty⟩ := by
  have h := C13_slicing_defined ⟨18446744073709551615, true, SpellerPtrMap.empty⟩ 19
    (by decide)
  refine ⟨by decide, h.1, ?_⟩
  simp [SpellerInput.left, h.1]

/-- C19: when the substitution map sends `a` to `b`, `spell` of `a` is `doSpell`
of `b` on the same input, with no lookup of `b`; so when the map also sends `b`
to `c` and the two spell differently, `spell` of `a` gives the text of `b` and
not the text of `c`. -/
theorem C19_single_redirection (heap : Heap) (fuel : Nat) (ctx : SpellerInput)
    (a b : SpellerPtr) (hab : ctx.m_substitutes a = some b) :
    ctx.spell (doSpell heap fuel) a = doSpell heap fuel b ctx
      ∧ (∀ (c : SpellerPtr) (textB textC : String), ctx.m_substitutes b = some c →
          doSpell heap fuel b ctx = some textB → doSpell heap fuel c ctx = some textC →
          textB ≠ textC →
          ctx.spell (doSpell heap fuel) a = some textB
            ∧ ctx.spell (doSpell heap fuel) a ≠ some textC) := by
  have h : ctx.spell (doSpell heap fuel) a = doSpell heap fuel b ctx := spell_of_some hab
  refine ⟨h, ?_⟩
  intro c textB textC _ hb _ hne
  rw [h, hb]
  exact ⟨rfl, fun hcon => hne (Option.some.inj hcon)⟩

/-- C19 on the words "A", "B", "Z" with "A" sent to "B" and "B" sent to "Z". -/
theorem C19_single_redirection_witness :
    ((SpellerPtrMap.empty.assign 0 1).assign 1 2) 0 = some 1
      ∧ ((SpellerPtrMap.empty.assign 0 1).assign 1 2) 1 = some 2
      ∧ SpellerInput.spell (doSpell wordHeap 1)
          ⟨7, false, (SpellerPtrMap.empty.assign 0 1).assign 1 2⟩ 0 = some "B "
      ∧ SpellerInput.spell (doSpell wordHeap 1)
          ⟨7, false, (SpellerPtrMap.empty.assign 0 1).assign 1 2⟩ 0 ≠ some "Z " :=
  ⟨by decide, by decide,
    (C19_single_redirection wordHeap 1
      ⟨7, false, (SpellerPtrMap.empty.assign 0 1).assign 1 2⟩ 0 1 (by decide)).2
      2 "B " "Z " (by decide) (by decide) (by decide) (by decide)⟩

theorem loopHeap_inner_diverges :
    ∀ (fuel : Nat) (input : SpellerInput), input.m_substitutes 0 = some 1 →
      doSpell loopHeap fuel 1 input = none := by
  intro fuel
  induction fuel with
  | zero => intro input _; rfl
  | succ n ih =>
    intro input h
    have hnode : loopHeap[1]? = some (ISpeller.SequentialSpeller 0 0) := by decide
    rw [doSpell]
    simp only [hnode]
    rw [spell_of_some h, ih input h]

theorem loopHeap_diverges (fuel : Nat) (input : SpellerInput) :
    doSpell loopHeap fuel 2 input = none := by
  cases fuel with
  | zero => rfl
  | succ n =>
    have hnode : loopHeap[2]? = some (ISpeller.SubstituteSpeller 0 1 0) := by decide
    have hk : (input.addSubstitute 0 1).m_substitutes 0 = some 1 := by
      simp [SpellerInput.addSubstitute, SpellerPtrMap.assign]
    rw [doSpell_substitute hnode, spell_of_some hk]
    exact loopHeap_inner_diverges n _ hk

theorem wideSplit_fails (fuel : Nat) (input : SpellerInput) :
    doSpell wideSplitHeap fuel 1 input = none := by
  cases fuel with
  | zero => rfl
  | succ n =>
    have hnode : wideSplitHeap[1]? = some (ISpeller.PositionSplitSpeller 64 0 0 false) := by
      decide
    have hl : input.left 64 = none := by
      have : divider 64 = 0 := by decide
      simp [SpellerInput.left, this]
    rw [doSpell]
    simp only [hnode, hl]

theorem divider_ne_zero_of_lt_64 (P : Int) (h : P < 64) : divider P ≠ 0 := by
  have : ∀ n < 64, dividerLoop n 1 ≠ 0 := by decide
  exact this _ (by omega)

theorem leaf_returns {heap : Heap} {p : SpellerPtr} (h : leafAt heap p = true) (fuel : Nat)
    (input : SpellerInput) : ∃ s, doSpell heap (fuel + 1) p input = some s := by
  unfold leafAt at h
  cases hn : heap[p]? with
  | none => simp [hn] at h
  | some node =>
    cases node with
    | NullSpeller => exact ⟨_, doSpell_null hn fuel input⟩
    | StringSpeller v => exact ⟨_, doSpell_string hn fuel input⟩
    | SubstituteSpeller f t w => simp [hn] at h
    | SelectionSpeller th lo hi => simp [hn] at h
    | SignSpeller hi lo => simp [hn] at h
    | SequentialSpeller a b => simp [hn] at h
    | PositionSplitSpeller pos r l inv => simp [hn] at h

theorem doSpell_returns {heap : Heap} (hcf : ChildrenFirst heap) (hlo : LeafOverrides heap) :
    ∀ (p : Nat), p < heap.length → ∀ (input : SpellerInput), OverlayToLeaves heap input →
      ∀ fuel, p + 1 ≤ fuel → ∃ s, doSpell heap fuel p input = some s := by
  intro p
  induction p using Nat.strong_induction_on with
  | _ p ih =>
    intro hp input hov fuel hfuel
    obtain ⟨f, rfl⟩ : ∃ f, fuel = f + 1 := ⟨fuel - 1, by omega⟩
    have hget : heap[p]? = some (heap.get ⟨p, hp⟩) := by
      simp [List.getElem?_eq_getElem hp]
    have hc := hcf p hp
    have hl := hlo p hp
    have hsp : ∀ (q : Nat), q < p → ∀ (i : SpellerInput), OverlayToLeaves heap i →
        ∃ s, i.spell (doSpell heap f) q = some s := by
      intro q hq i hi
      cases hk : i.m_substitutes q with
      | none =>
        rw [spell_of_none hk]
        exact ih q hq (by omega) i hi f (by omega)
      | some v =>
        rw [spell_of_some hk]
        obtain ⟨g, rfl⟩ : ∃ g, f = g + 1 := ⟨f - 1, by omega⟩
        exact leaf_returns (hi q v hk) g i
    cases hnode : heap.get ⟨p, hp⟩ with
    | NullSpeller => rw [hnode] at hget; exact ⟨_, doSpell_null hget f input⟩
    | StringSpeller v => rw [hnode] at hget; exact ⟨_, doSpell_string hget f input⟩
    | SubstituteSpeller m_from m_to m_what =>
      rw [hnode] at hget hc hl
      simp [childrenBefore] at hc
      simp [leafOverride] at hl
      rw [doSpell_substitute hget]
      apply hsp m_what hc.2 _
      intro k v hkv
      simp only [SpellerInput.addSubstitute, SpellerPtrMap.assign] at hkv
      split at hkv
      · simp at hkv; rw [← hkv]; exact hl
      · exact hov k v hkv
    | SelectionSpeller th lo hi =>
      rw [hnode] at hget hc
      simp [childrenBefore] at hc
      rw [doSpell_selection hget]
      split
      · exact hsp lo hc.1 input hov
      · exact hsp hi hc.2 input hov
    | SignSpeller hi lo =>
      rw [hnode] at hget hc
      simp [childrenBefore] at hc
      rw [doSpell_sign hget]
      split
      · exact hsp lo hc.2 input hov
      · exact hsp hi hc.1 input hov
    | SequentialSpeller a b =>
      rw [hnode] at hget hc
      simp [childrenBefore] at hc
      obtain ⟨x, hx⟩ := hsp a hc.1 input hov
      obtain ⟨y, hy⟩ := hsp b hc.2 input hov
      exact ⟨_, doSpell_sequential hget f input hx hy⟩
    | PositionSplitSpeller pos r l inv =>
      rw [hnode] at hget hc hl
      simp [childrenBefore] at hc
      simp [leafOverride] at hl
      have hdiv := divider_ne_zero_of_lt_64 pos hl
      obtain ⟨x, hx⟩ := hsp l hc.2
        { input with m_number := input.m_number / divider pos } hov
      obtain ⟨y, hy⟩ := hsp r hc.1
        { input with m_number := input.m_number % divider pos } hov
      exact ⟨_, doSpell_split hget f input hdiv hx hy⟩

theorem english_well_built : ChildrenFirst englishHeap ∧ LeafOverrides englishHeap := by
  decide!

theorem russian_well_built : ChildrenFirst russianHeap ∧ LeafOverrides russianHeap := by
  decide!

/-- C14 fails as stated: `loopHeap` is built children first, and its root
returns no text within any budget, since the override sends `unit` to a node
that evaluates `unit` again; and the split at position 64 of `wideSplitHeap`
returns no text either, since its divider is zero. -/
theorem C14_termination_counterexample :
    ChildrenFirst loopHeap
      ∧ (∀ fuel, doSpell loopHeap fuel 2 (SpellerInput.ofInt 5) = none)
      ∧ ChildrenFirst wideSplitHeap
      ∧ (∀ fuel, doSpell wideSplitHeap fuel 1 (SpellerInput.ofInt 5) = none) :=
  ⟨by decide, fun fuel => loopHeap_diverges fuel _, by decide,
    fun fuel => wideSplit_fails fuel _⟩

/-- C14 as amended: in a graph built children first whose overrides redirect
only to Empty or Literal nodes and whose split positions are below 64, every
node returns a text on every context whose substitution map sends keys only to
Empty or Literal nodes, within a budget of the number of nodes. -/
theorem C14_termination (heap : Heap) (root : SpellerPtr) (input : SpellerInput)
    (fuel : Nat) (hcf : ChildrenFirst heap) (hlo : LeafOverrides heap)
    (hroot : root < heap.length) (hov : OverlayToLeaves heap input)
    (hfuel : heap.length ≤ fuel) :
    ∃ text, doSpell heap fuel root input = some text :=
  doSpell_returns hcf hlo root hroot input hov fuel
    (Nat.succ_le_of_lt (Nat.lt_of_lt_of_le hroot hfuel))

/-- C14 as amended, on the Russian grammar and the value -12345. -/
theorem C14_termination_witness :
    (ChildrenFirst russianHeap ∧ LeafOverrides russianHeap
        ∧ russianSpeller < russianHeap.length
        ∧ OverlayToLeaves russianHeap (SpellerInput.ofInt (-12345))
        ∧ russianHeap.length ≤ 120)
      ∧ ∃ text, doSpell russianHeap 120 russianSpeller (SpellerInput.ofInt (-12345))
          = some text :=
  ⟨⟨russian_well_built.1, russian_well_built.2, (by decide!), (fun _ _ h => by cases h),
      (by decide!)⟩,
    C14_termination russianHeap russianSpeller (SpellerInput.ofInt (-12345)) 120
      russian_well_built.1 russian_well_built.2 (by decide!) (fun _ _ h => by cases h)
      (by decide!)⟩

/-- C15 fails as stated: in `nestedHeap` the override of "A" by "B" around the
override of "A" by "C" around "A", spelled on the input whose map redirects the
inner override node to "Z" (the input the root 6 passes down for the value 7),
gives "Z " and not the text "C " of the node `c`. -/
theorem C15_innermost_override_counterexample :
    nestedHeap[4]? = some (ISpeller.SubstituteSpeller 0 1 3)
      ∧ nestedHeap[3]? = some (ISpeller.SubstituteSpeller 0 2 0)
      ∧ doSpell nestedHeap 8 4 ⟨7, false, SpellerPtrMap.empty.assign 3 5⟩ = some "Z "
      ∧ doSpell nestedHeap 8 2 ⟨7, false, SpellerPtrMap.empty.assign 3 5⟩ = some "C "
      ∧ doSpell nestedHeap 8 2
          (SpellerInput.addSubstitute ⟨7, false, SpellerPtrMap.empty.assign 3 5⟩ 0 2)
        = some "C "
      ∧ doSpell nestedHeap 8 6 (SpellerInput.ofInt 7) = some "Z "
      ∧ "Z " ≠ "C " := by
  decide

/-- C15 as amended: when the substitution map of the context does not redirect
the inner override node (a node allocated after `a`, its child),
`Override(a, b, Override(a, c, a))` spells the context as `c` spells it under
the map with `a` sent to `c`: the second assignment replaces the first, and
every other key keeps its mapping.  So the English `hundreds` node spells
"Hundred" after the digit under a map that sends `unit` to "Thousand". -/
theorem C15_innermost_override (heap : Heap) (outer inner a b c : SpellerPtr)
    (ctx : SpellerInput) (fuel : Nat)
    (houter : heap[outer]? = some (ISpeller.SubstituteSpeller a b inner))
    (hinner : heap[inner]? = some (ISpeller.SubstituteSpeller a c a))
    (hbefore : a < inner) (hkey : ctx.m_substitutes inner = none) :
    doSpell heap (fuel + 2) outer ctx = doSpell heap fuel c (ctx.addSubstitute a c)
      ∧ ((ctx.addSubstitute a b).addSubstitute a c).m_substitutes
          = (ctx.addSubstitute a c).m_substitutes
      ∧ (ctx.addSubstitute a c).m_substitutes a = some c
      ∧ (∀ k, k ≠ a → (ctx.addSubstitute a c).m_substitutes k = ctx.m_substitutes k)
      ∧ englishHeap[65]? = some (ISpeller.StringSpeller "Thousand")
      ∧ (∀ (h : Nat) (neg : Bool), 1 ≤ h → h ≤ 9 →
          doSpell englishHeap englishHeap.length english.hundreds
              ⟨h, neg, SpellerPtrMap.empty.assign english.unit 65⟩
            = some (Digit h ++ " Hundred ")) := by
  have hmap : ((ctx.addSubstitute a b).addSubstitute a c).m_substitutes
      = (ctx.addSubstitute a c).m_substitutes := by
    funext k
    simp only [SpellerInput.addSubstitute, SpellerPtrMap.assign]
    split <;> rfl
  have hctx : (ctx.addSubstitute a b).addSubstitute a c = ctx.addSubstitute a c := by
    cases ctx
    simp only [SpellerInput.addSubstitute] at hmap ⊢
    rw [hmap]
  have hk1 : (ctx.addSubstitute a b).m_substitutes inner = none := by
    have : inner ≠ a := Nat.ne_of_gt hbefore
    simp [SpellerInput.addSubstitute, SpellerPtrMap.assign, this, hkey]
  have hk2 : ((ctx.addSubstitute a b).addSubstitute a c).m_substitutes a = some c := by
    simp [SpellerInput.addSubstitute, SpellerPtrMap.assign]
  refine ⟨?_, hmap, ?_, ?_, by decide!, ?_⟩
  · rw [doSpell_substitute houter, spell_of_none hk1, doSpell_substitute hinner,
      spell_of_some hk2, hctx]
  · simp [SpellerInput.addSubstitute, SpellerPtrMap.assign]
  · intro k hk
    simp [SpellerInput.addSubstitute, SpellerPtrMap.assign, hk]
  · intro h neg h1 h9
    rw [english_locals, englishHeap_length]
    have := doSpell_mono englishHeap 14 84 62 ⟨h, neg, englishOverlay 1⟩ _ (by decide)
      (english_hundreds_small 1 (by decide) neg h (by omega))
    have hn : h ≠ 0 := by omega
    simpa [englishOverlay, triadH, hn] using this

/-- C15 as amended, on `nestedHeap` with an empty map: "C ". -/
theorem C15_innermost_override_witness :
    (nestedHeap[4]? = some (ISpeller.SubstituteSpeller 0 1 3)
        ∧ nestedHeap[3]? = some (ISpeller.SubstituteSpeller 0 2 0)
        ∧ 0 < 3 ∧ SpellerPtrMap.empty 3 = none)
      ∧ doSpell nestedHeap 3 4 ⟨7, false, SpellerPtrMap.empty⟩
        = doSpell nestedHeap 1 2
            (SpellerInput.addSubstitute ⟨7, false, SpellerPtrMap.empty⟩ 0 2)
      ∧ doSpell nestedHeap 3 4 ⟨7, false, SpellerPtrMap.empty⟩ = some "C " :=
  ⟨⟨by decide, by decide, by decide, rfl⟩,
    (C15_innermost_override nestedHeap 4 3 0 1 2 ⟨7, false, SpellerPtrMap.empty⟩ 1
      (by decide) (by decide) (by decide) rfl).1,
    by decide⟩

/-- C11 on the tens split of the English grammar at 42: "Forty " then "Two ". -/
theorem C11_position_split_order_witness :
    (englishHeap[56]? = some (ISpeller.PositionSplitSpeller 1 20 54 false)
        ∧ SpellerInput.left ⟨42, false, SpellerPtrMap.empty⟩ 1
          = some ⟨4, false, SpellerPtrMap.empty⟩
        ∧ SpellerInput.right ⟨42, false, SpellerPtrMap.empty⟩ 1
          = some ⟨2, false, SpellerPtrMap.empty⟩)
      ∧ doSpell englishHeap 21 56 ⟨42, false, SpellerPtrMap.empty⟩
        = some ("Forty " ++ "Two ") :=
  ⟨⟨by decide!, rfl, rfl⟩,
    ((C11_position_split_order englishHeap 56 20 54 1 false
      ⟨42, false, SpellerPtrMap.empty⟩ 20 (by decide!)).1
      ⟨4, false, SpellerPtrMap.empty⟩ ⟨2, false, SpellerPtrMap.empty⟩ rfl rfl).1
      "Forty " "Two " (by decide!) (by decide!)⟩

/-- C12 at the magnitude 1234567 and the position 3. -/
theorem C12_slicing_arithmetic_witness :
    ((0 : Int) ≤ 3 ∧ (3 : Int) ≤ 19)
      ∧ SpellerInput.left ⟨1234567, true, SpellerPtrMap.empty.assign 0 1⟩ 3
        = some ⟨1234567 / 10 ^ 3, true, SpellerPtrMap.empty.assign 0 1⟩
      ∧ SpellerInput.right ⟨1234567, true, SpellerPtrMap.empty.assign 0 1⟩ 3
        = some ⟨1234567 % 10 ^ 3, true, SpellerPtrMap.empty.assign 0 1⟩ :=
  ⟨⟨by decide, by decide⟩,
    (C12_slicing_arithmetic ⟨1234567, true, SpellerPtrMap.empty.assign 0 1⟩ 3
      (by decide) (by decide)).1,
    (C12_slicing_arithmetic ⟨1234567, true, SpellerPtrMap.empty.assign 0 1⟩ 3
      (by decide) (by decide)).2.1⟩

theorem ruTriad_thousand_forms :
    ∀ k < 1000, 1 ≤ k →
      (EndsWith (ruTriad 1 k) "тысяча " ↔ thousandSingular k)
        ∧ (EndsWith (ruTriad 1 k) "тысячи " ↔ thousandPaucal k)
        ∧ (EndsWith (ruTriad 1 k) "тысяч " ↔ ¬ thousandSingular k ∧ ¬ thousandPaucal k) := by
  decide!

theorem wordsFrom_append (b : List Char) (hb : wordsFrom false b = true) :
    ∀ (a : List Char) (st : Bool), wordsFrom st a = true → wordsFrom st (a ++ b) = true := by
  intro a
  induction a with
  | nil =>
    intro st h
    cases st with
    | false => simpa using hb
    | true => simp [wordsFrom] at h
  | cons c cs ih =>
    intro st h
    simp only [List.cons_append, wordsFrom] at h ⊢
    split at h
    · rename_i hc
      simp only [hc, if_true]
      simp only [Bool.and_eq_true] at h ⊢
      exact ⟨h.1, ih false h.2⟩
    · rename_i hc
      simp only [hc, if_false]
      exact ih true h

theorem wordsFrom_last :
    ∀ (l : List Char) (st : Bool), wordsFrom st l = true → l ≠ [] →
      l.getLast? = some ' ' := by
  intro l
  induction l with
  | nil => intro st _ h; exact absurd rfl h
  | cons c cs ih =>
    intro st h _
    cases cs with
    | nil =>
      simp only [wordsFrom] at h
      split at h
      · rename_i hc; simp [hc]
      · simp at h
    | cons d ds =>
      rw [List.getLast?_cons_cons]
      simp only [wordsFrom] at h
      split at h
      · simp only [Bool.and_eq_true] at h
        exact ih false (by simpa [wordsFrom] using h.2) (by simp)
      · exact ih true (by simpa [wordsFrom] using h) (by simp)

theorem wordsFrom_head (c : Char) (cs : List Char) (h : wordsFrom false (c :: cs) = true) :
    c ≠ ' ' := by
  intro hc
  simp [wordsFrom, hc] at h

theorem wordsFrom_double (t : List Char) :
    ∀ (s : List Char) (st : Bool), wordsFrom st (s ++ ' ' :: ' ' :: t) = false := by
  intro s
  induction s with
  | nil => intro st; simp [wordsFrom]
  | cons c cs ih =>
    intro st
    simp only [List.cons_append, wordsFrom]
    split
    · have := ih false
      simp only [Bool.and_eq_false_imp]
      intro _
      exact this
    · exact ih true

theorem wordsFrom_sound :
    ∀ (l : List Char),
      (wordsFrom false l = true →
        ∃ ws : List (List Char), (∀ w ∈ ws, w ≠ [] ∧ ' ' ∉ w) ∧ l = joinWords ws)
      ∧ (wordsFrom true l = true →
        ∃ (w : List Char) (ws : List (List Char)), ' ' ∉ w ∧ (∀ v ∈ ws, v ≠ [] ∧ ' ' ∉ v)
          ∧ l = w ++ ' ' :: joinWords ws) := by
  intro l
  induction l with
  | nil =>
    constructor
    · intro _; exact ⟨[], by simp, by simp [joinWords]⟩
    · intro h; simp [wordsFrom] at h
  | cons c cs ih =>
    by_cases hc : c = ' '
    · constructor
      · intro h; simp [wordsFrom, hc] at h
      · intro h
        simp only [wordsFrom, hc, if_true, Bool.true_and] at h
        obtain ⟨ws, hws, hl⟩ := ih.1 h
        exact ⟨[], ws, by simp, hws, by simp [hc, hl]⟩
    · have hstep : ∀ st, wordsFrom st (c :: cs) = wordsFrom true cs := by
        intro st; simp [wordsFrom, hc]
      constructor
      · intro h
        rw [hstep] at h
        obtain ⟨w, ws, hw, hws, hl⟩ := ih.2 h
        refine ⟨(c :: w) :: ws, ?_, ?_⟩
        · intro v hv
          rcases List.mem_cons.mp hv with rfl | hv
          · exact ⟨by simp, by simp [hw, Ne.symm hc]⟩
          · exact hws v hv
        · simp [joinWords, hl]
      · intro h
        rw [hstep] at h
        obtain ⟨w, ws, hw, hws, hl⟩ := ih.2 h
        exact ⟨c :: w, ws, by simp [hw, Ne.symm hc], hws, by simp [hl]⟩

theorem outputFormat_of_checked (s : String) (h : Checked s) (hne : s.length ≠ 0) :
    OutputFormat s := by
  have hdata : s.data ≠ [] := by
    intro hd
    apply hne
    simp [String.length, hd]
  obtain ⟨ws, hws, hl⟩ := (wordsFrom_sound s.data).1 h
  refine ⟨?_, ⟨ws, ?_, hws, hl⟩, wordsFrom_last _ _ h hdata, ?_, ?_⟩
  · intro hs; apply hne; rw [hs]; rfl
  · intro hw
    rw [hw] at hl
    exact hdata (by simpa [joinWords] using hl)
  · cases hd : s.data with
    | nil => simp
    | cons c cs =>
      unfold Checked at h
      rw [hd] at h
      have := wordsFrom_head c cs h
      simpa using this
  · rintro ⟨a, b, hab⟩
    have := wordsFrom_double b a false
    rw [List.append_assoc] at hab
    simp only [List.cons_append, List.nil_append] at hab
    rw [hab] at this
    rw [h] at this
    exact Bool.noConfusion this

theorem checked_append (a b : String) (ha : Checked a) (hb : Checked b) :
    Checked (a ++ b) := by
  unfold Checked at *
  rw [String.data_append]
  exact wordsFrom_append _ hb _ _ ha

theorem terminated_of_checked (s : String) (h : Checked s) : Terminated s := by
  by_cases hd : s.data = []
  · exact Or.inl hd
  · exact Or.inr (wordsFrom_last _ _ h hd)

theorem english_pieces_checked :
    (∀ h < 10, Checked (triadH h) ∧ (h ≠ 0 → (triadH h).length ≠ 0))
      ∧ (∀ r < 100, Checked (triadR r) ∧ (r ≠ 0 → (triadR r).length ≠ 0)) := by
  decide!

theorem russian_pieces_checked :
    (∀ h < 10, Checked (ruHundreds h) ∧ (h ≠ 0 → (ruHundreds h).length ≠ 0))
      ∧ (∀ k < 4, ∀ r < 100, Checked (ruTensAndUnits k r)
          ∧ (r ≠ 0 → (ruTensAndUnits k r).length ≠ 0)) := by
  decide!

theorem triadReference_checked (t : Nat) (ht : t < 1000) :
    Checked (triadReference t) ∧ (t ≠ 0 → (triadReference t).length ≠ 0) := by
  have hH := english_pieces_checked.1 (t / 100) (by omega)
  have hR := english_pieces_checked.2 (t % 100) (by omega)
  refine ⟨checked_append _ _ hH.1 hR.1, ?_⟩
  intro h0
  unfold triadReference
  rw [String.length_append]
  by_cases hh : t / 100 = 0
  · have := hR.2 (by omega); omega
  · have := hH.2 hh; omega

theorem ruTriad_checked (k : Nat) (hk : k < 4) (t : Nat) (ht : t < 1000) :
    Checked (ruTriad k t) ∧ (t ≠ 0 → (ruTriad k t).length ≠ 0) := by
  have hH := russian_pieces_checked.1 (t / 100) (by omega)
  have hR := russian_pieces_checked.2 k hk (t % 100) (by omega)
  refine ⟨checked_append _ _ hH.1 hR.1, ?_⟩
  intro h0
  unfold ruTriad
  rw [String.length_append]
  by_cases hh : t / 100 = 0
  · have := hR.2 (by omega); omega
  · have := hH.2 hh; omega

theorem checked_empty : Checked "" := by decide

theorem groupText_checked (t : Nat) (ht : t < 1000) (W : String) (hW : Checked (W ++ " ")) :
    Checked (groupText triadReference t W)
      ∧ (t ≠ 0 → (groupText triadReference t W).length ≠ 0) := by
  unfold groupText
  by_cases h0 : t = 0
  · simp only [h0, if_true]
    exact ⟨checked_empty, fun h => absurd rfl h⟩
  · simp only [h0, if_false]
    have hT := triadReference_checked t ht
    rw [String.append_assoc]
    refine ⟨checked_append _ _ hT.1 hW, fun _ => ?_⟩
    rw [String.length_append]
    have := hT.2 h0
    omega

theorem ruGroup_checked (k : Nat) (hk : k < 4) (t : Nat) (ht : t < 1000) :
    Checked (ruGroup k t) ∧ (t ≠ 0 → (ruGroup k t).length ≠ 0) := by
  unfold ruGroup
  by_cases h0 : t = 0
  · simp only [h0, if_true]
    exact ⟨checked_empty, fun h => absurd rfl h⟩
  · simp only [h0, if_false]
    exact ruTriad_checked k hk t ht

theorem englishGroups_checked (m : Nat) (hm : m < 10 ^ 12) :
    Checked (englishGroups triadReference m)
      ∧ (m ≠ 0 → (englishGroups triadReference m).length ≠ 0) := by
  have hB := groupText_checked (m / 10 ^ 9) (by omega) "Billion" (by decide)
  have hM := groupText_checked (m / 10 ^ 6 % 1000) (by omega) "Million" (by decide)
  have hT := groupText_checked (m / 1000 % 1000) (by omega) "Thousand" (by decide)
  have hU := triadReference_checked (m % 1000) (by omega)
  unfold englishGroups
  refine ⟨checked_append _ _ (checked_append _ _ (checked_append _ _ hB.1 hM.1) hT.1) hU.1,
    fun h0 => ?_⟩
  simp only [String.length_append]
  by_cases h1 : m / 10 ^ 9 = 0
  · by_cases h2 : m / 10 ^ 6 % 1000 = 0
    · by_cases h3 : m / 1000 % 1000 = 0
      · have := hU.2 (by omega); omega
      · have := hT.2 h3; omega
    · have := hM.2 h2; omega
  · have := hB.2 h1; omega

theorem russianGroups_checked (m : Nat) (hm : m < 10 ^ 12) :
    Checked (russianGroups m) ∧ (m ≠ 0 → (russianGroups m).length ≠ 0) := by
  have hB := ruGroup_checked 3 (by decide) (m / 10 ^ 9) (by omega)
  have hM := ruGroup_checked 2 (by decide) (m / 10 ^ 6 % 1000) (by omega)
  have hT := ruGroup_checked 1 (by decide) (m / 1000 % 1000) (by omega)
  have hU := ruTriad_checked 0 (by decide) (m % 1000) (by omega)
  unfold russianGroups
  refine ⟨checked_append _ _ (checked_append _ _ (checked_append _ _ hB.1 hM.1) hT.1) hU.1,
    fun h0 => ?_⟩
  simp only [String.length_append]
  by_cases h1 : m / 10 ^ 9 = 0
  · by_cases h2 : m / 10 ^ 6 % 1000 = 0
    · by_cases h3 : m / 1000 % 1000 = 0
      · have := hU.2 (by omega); omega
      · have := hT.2 h3; omega
    · have := hM.2 h2; omega
  · have := hB.2 h1; omega

theorem spell_zero :
    spellEnglish 0 = some "Zero " ∧ spellRussian 0 = some "ноль " := by
  decide!

theorem cases_int (n : Int) (hlo : -2 ^ 31 < n) (hhi : n < 2 ^ 31) :
    n = 0 ∨ (∃ k : Nat, 1 ≤ k ∧ k < 2 ^ 31 ∧ n = (k : Int))
      ∨ (∃ k : Nat, 1 ≤ k ∧ k < 2 ^ 31 ∧ n = -(k : Int)) := by
  rcases Int.lt_trichotomy n 0 with h | h | h
  · exact Or.inr (Or.inr ⟨n.natAbs, by omega, by omega, by omega⟩)
  · exact Or.inl h
  · exact Or.inr (Or.inl ⟨n.natAbs, by omega, by omega, by omega⟩)

/-- C16: for `1 ≤ k ≤ 999` the Russian spelling of `1000 * k` ends with
"тысяча " exactly when `k mod 10 = 1` and `k mod 100 ≠ 11`, with "тысячи "
exactly when `k mod 10` is 2, 3 or 4 and `k mod 100` is not 12, 13 or 14, and
with "тысяч " exactly in every other case. -/
theorem C16_russian_thousand_case (k : Nat) (h1 : 1 ≤ k) (h2 : k ≤ 999) :
    ∃ s, spellRussian ((1000 * k : Nat) : Int) = some s
      ∧ (EndsWith s "тысяча " ↔ thousandSingular k)
      ∧ (EndsWith s "тысячи " ↔ thousandPaucal k)
      ∧ (EndsWith s "тысяч " ↔ ¬ thousandSingular k ∧ ¬ thousandPaucal k) := by
  refine ⟨_, spellRussian_pos (1000 * k) (by omega) (by omega), ?_⟩
  rw [russianGroups_thousands k h1 h2]
  exact ruTriad_thousand_forms k (by omega) h1

/-- C16 at `k = 111`: "сто одиннадцать тысяч ". -/
theorem C16_russian_thousand_case_witness :
    (1 ≤ 111 ∧ 111 ≤ 999)
      ∧ ∃ s, spellRussian ((1000 * 111 : Nat) : Int) = some s
        ∧ (EndsWith s "тысяча " ↔ thousandSingular 111)
        ∧ (EndsWith s "тысячи " ↔ thousandPaucal 111)
        ∧ (EndsWith s "тысяч " ↔ ¬ thousandSingular 111 ∧ ¬ thousandPaucal 111) :=
  ⟨⟨by decide, by decide⟩, C16_russian_thousand_case 111 (by decide) (by decide)⟩

/-- C17: for every `int` value `n` with `-2^31 < n < 2^31` both grammars
return a text in the output format: not empty, a concatenation of non-empty
words each followed by one space, ending with a space, not beginning with a
space and without two consecutive spaces. -/
theorem C17_output_format (n : Int) (hlo : -2 ^ 31 < n) (hhi : n < 2 ^ 31) :
    (∃ s, spellEnglish n = some s ∧ OutputFormat s)
      ∧ (∃ s, spellRussian n = some s ∧ OutputFormat s) := by
  rcases cases_int n hlo hhi with rfl | ⟨k, hk1, hk2, rfl⟩ | ⟨k, hk1, hk2, rfl⟩
  · exact ⟨⟨_, spell_zero.1, outputFormat_of_checked _ (by decide) (by decide)⟩,
      ⟨_, spell_zero.2, outputFormat_of_checked _ (by decide) (by decide)⟩⟩
  · have hE := englishGroups_checked k (by omega)
    have hR := russianGroups_checked k (by omega)
    exact ⟨⟨_, spellEnglish_pos k hk1 hk2,
        outputFormat_of_checked _ hE.1 (hE.2 (by omega))⟩,
      ⟨_, spellRussian_pos k hk1 hk2,
        outputFormat_of_checked _ hR.1 (hR.2 (by omega))⟩⟩
  · have hE := englishGroups_checked k (by omega)
    have hR := russianGroups_checked k (by omega)
    refine ⟨⟨_, spellEnglish_neg k hk2 hk1,
        outputFormat_of_checked _ (checked_append _ _ (by decide) hE.1) ?_⟩,
      ⟨_, spellRussian_neg k hk2 hk1,
        outputFormat_of_checked _ (checked_append _ _ (by decide) hR.1) ?_⟩⟩
    · rw [String.length_append]
      have : ("Minus ").length = 6 := by decide
      omega
    · rw [String.length_append]
      have : ("минус ").length = 6 := by decide
      omega

/-- C17 at the value -1001001. -/
theorem C17_output_format_witness :
    (-(2 : Int) ^ 31 < -1001001 ∧ (-1001001 : Int) < 2 ^ 31)
      ∧ (∃ s, spellEnglish (-1001001) = some s ∧ OutputFormat s)
      ∧ spellEnglish (-1001001) = some "Minus One Million One Thousand One " :=
  ⟨⟨by decide, by decide⟩, (C17_output_format (-1001001) (by decide) (by decide)).1,
    by decide!⟩

theorem english_pieces_decoded :
    (∀ h < 10, (∀ w ∈ wordsOf (triadH h), plainWord w)
        ∧ (wordsOf (triadH h)).foldl stepCur 0 = 100 * h)
      ∧ (∀ r < 100, (∀ w ∈ wordsOf (triadR r), plainWord w ∧ w ≠ "Hundred")
        ∧ (wordsOf (triadR r)).foldl stepCur 0 = r) := by
  decide!

theorem foldl_stepWord_plain :
    ∀ (ws : List String) (st : Nat × Nat), (∀ w ∈ ws, plainWord w) →
      ws.foldl stepWord st = (st.1, ws.foldl stepCur st.2) := by
  intro ws
  induction ws with
  | nil => intro st _; rfl
  | cons w ws ih =>
    intro st h
    have hw := h w (List.mem_cons_self _ _)
    have hstep : stepWord st w = (st.1, stepCur st.2 w) := by
      simp [stepWord, hw.1, hw.2.1, hw.2.2.1]
    rw [List.foldl_cons, hstep, ih _ (fun v hv => h v (List.mem_cons_of_mem _ hv))]
    rfl

theorem foldl_stepCur_add :
    ∀ (ws : List String) (c : Nat), (∀ w ∈ ws, w ≠ "Hundred") →
      ws.foldl stepCur c = c + ws.foldl stepCur 0 := by
  intro ws
  induction ws with
  | nil => intro c _; rfl
  | cons w ws ih =>
    intro c h
    have hw := h w (List.mem_cons_self _ _)
    have hrest : ∀ v ∈ ws, v ≠ "Hundred" := fun v hv => h v (List.mem_cons_of_mem _ hv)
    have hstep : ∀ d, stepCur d w = d + smallValue w := by
      intro d; simp [stepCur, hw]
    rw [List.foldl_cons, List.foldl_cons, hstep, hstep, ih _ hrest, ih (0 + smallValue w) hrest]
    omega

theorem triadReference_words (t : Nat) (ht : t < 1000) :
    wordsOf (triadReference t) = wordsOf (triadH (t / 100)) ++ wordsOf (triadR (t % 100)) := by
  unfold triadReference
  exact wordsOf_append _ _
    (terminated_of_checked _ (english_pieces_checked.1 (t / 100) (by omega)).1)

theorem triadReference_decoded (t : Nat) (ht : t < 1000) :
    (∀ w ∈ wordsOf (triadReference t), plainWord w)
      ∧ ∀ acc, (wordsOf (triadReference t)).foldl stepWord (acc, 0) = (acc, t) := by
  have hH := english_pieces_decoded.1 (t / 100) (by omega)
  have hR := english_pieces_decoded.2 (t % 100) (by omega)
  have hplain : ∀ w ∈ wordsOf (triadReference t), plainWord w := by
    intro w hw
    rw [triadReference_words t ht, List.mem_append] at hw
    rcases hw with hw | hw
    · exact hH.1 w hw
    · exact (hR.1 w hw).1
  refine ⟨hplain, fun acc => ?_⟩
  rw [foldl_stepWord_plain _ _ hplain, triadReference_words t ht, List.foldl_append, hH.2,
    foldl_stepCur_add _ _ (fun w hw => (hR.1 w hw).2), hR.2]
  have : 100 * (t / 100) + t % 100 = t := by omega
  simp [this]

theorem groupText_decoded (W : String) (M : Nat)
    (hstep : ∀ st, stepWord st W = (st.1 + st.2 * M, 0))
    (hwords : wordsOf (W ++ " ") = [W]) (hminus : W ≠ "Minus")
    (t : Nat) (ht : t < 1000) :
    "Minus" ∉ wordsOf (groupText triadReference t W)
      ∧ ∀ acc, (wordsOf (groupText triadReference t W)).foldl stepWord (acc, 0)
          = (acc + t * M, 0) := by
  unfold groupText
  by_cases h0 : t = 0
  · simp only [h0, if_true]
    have : wordsOf "" = [] := by decide
    rw [this]
    exact ⟨by simp, fun acc => by simp⟩
  · simp only [h0, if_false]
    have hT := triadReference_decoded t ht
    have hw : wordsOf (triadReference t ++ W ++ " ") = wordsOf (triadReference t) ++ [W] := by
      rw [String.append_assoc, wordsOf_append _ _
        (terminated_of_checked _ (triadReference_checked t ht).1), hwords]
    rw [hw]
    constructor
    · intro hmem
      rcases List.mem_append.mp hmem with h | h
      · exact (hT.1 _ h).2.2.2 rfl
      · simp at h
        exact hminus h.symm
    · intro acc
      rw [List.foldl_append, hT.2 acc]
      simp [hstep]

theorem englishGroups_decoded (m : Nat) (hm : m < 10 ^ 12) :
    "Minus" ∉ wordsOf (englishGroups triadReference m)
      ∧ decodeWords (wordsOf (englishGroups triadReference m)) = m := by
  have hB := groupText_decoded "Billion" 1000000000 (fun st => by simp [stepWord])
    (by decide) (by decide) (m / 10 ^ 9) (by omega)
  have hM := groupText_decoded "Million" 1000000 (fun st => by simp [stepWord])
    (by decide) (by decide) (m / 10 ^ 6 % 1000) (by omega)
  have hT := groupText_decoded "Thousand" 1000 (fun st => by simp [stepWord])
    (by decide) (by decide) (m / 1000 % 1000) (by omega)
  have hU := triadReference_decoded (m % 1000) (by omega)
  have cB := (groupText_checked (m / 10 ^ 9) (by omega) "Billion" (by decide)).1
  have cM := (groupText_checked (m / 10 ^ 6 % 1000) (by omega) "Million" (by decide)).1
  have cT := (groupText_checked (m / 1000 % 1000) (by omega) "Thousand" (by decide)).1
  have hw : wordsOf (englishGroups triadReference m)
      = wordsOf (groupText triadReference (m / 10 ^ 9) "Billion")
        ++ wordsOf (groupText triadReference (m / 10 ^ 6 % 1000) "Million")
        ++ wordsOf (groupText triadReference (m / 1000 % 1000) "Thousand")
        ++ wordsOf (triadReference (m % 1000)) := by
    unfold englishGroups
    rw [wordsOf_append _ _ (terminated_of_checked _
        (checked_append _ _ (checked_append _ _ cB cM) cT)),
      wordsOf_append _ _ (terminated_of_checked _ (checked_append _ _ cB cM)),
      wordsOf_append _ _ (terminated_of_checked _ cB)]
  rw [hw]
  constructor
  · intro hmem
    simp only [List.mem_append] at hmem
    rcases hmem with ((h | h) | h) | h
    · exact hB.1 h
    · exact hM.1 h
    · exact hT.1 h
    · exact (hU.1 _ h).2.2.2 rfl
  · unfold decodeWords
    simp only [List.foldl_append]
    rw [hB.2, hM.2, hT.2, hU.2]
    simp only
    omega

theorem decodeEnglish_pos (m : Nat) (hm : m < 10 ^ 12) :
    decodeEnglish (englishGroups triadReference m) = (m : Int) := by
  have h := englishGroups_decoded m hm
  unfold decodeEnglish
  simp [h.1, h.2]

theorem decodeEnglish_neg (m : Nat) (hm : m < 10 ^ 12) :
    decodeEnglish ("Minus " ++ englishGroups triadReference m) = -(m : Int) := by
  have h := englishGroups_decoded m hm
  have hw : wordsOf ("Minus " ++ englishGroups triadReference m)
      = "Minus" :: wordsOf (englishGroups triadReference m) := by
    rw [wordsOf_append _ _ (by decide)]
    have : wordsOf "Minus " = ["Minus"] := by decide
    rw [this]
    rfl
  have hstep : stepWord (0, 0) "Minus" = (0, 0) := by decide
  have hd : decodeWords ("Minus" :: wordsOf (englishGroups triadReference m)) = m := by
    have := h.2
    unfold decodeWords at this ⊢
    rw [List.foldl_cons, hstep]
    exact this
  unfold decodeEnglish
  rw [hw, hd]
  simp

theorem spellEnglish_decoded (n : Int) (hlo : -2 ^ 31 < n) (hhi : n < 2 ^ 31) :
    ∃ s, spellEnglish n = some s ∧ decodeEnglish s = n := by
  rcases cases_int n hlo hhi with rfl | ⟨k, hk1, hk2, rfl⟩ | ⟨k, hk1, hk2, rfl⟩
  · exact ⟨_, spell_zero.1, by decide⟩
  · exact ⟨_, spellEnglish_pos k hk1 hk2, decodeEnglish_pos k (by omega)⟩
  · exact ⟨_, spellEnglish_neg k hk2 hk1, decodeEnglish_neg k (by omega)⟩

/-- C18: the English spelling is injective on the `int` range: for `a` and `b`
with `-2^31 < a, b < 2^31` the grammar returns a text for each, and equal
texts come from equal values. -/
theorem C18_english_injective (a b : Int) (ha1 : -2 ^ 31 < a) (ha2 : a < 2 ^ 31)
    (hb1 : -2 ^ 31 < b) (hb2 : b < 2 ^ 31) :
    (spellEnglish a).isSome = true ∧ (spellEnglish b).isSome = true
      ∧ (spellEnglish a = spellEnglish b → a = b) := by
  obtain ⟨sa, hsa, hda⟩ := spellEnglish_decoded a ha1 ha2
  obtain ⟨sb, hsb, hdb⟩ := spellEnglish_decoded b hb1 hb2
  refine ⟨by simp [hsa], by simp [hsb], fun h => ?_⟩
  rw [hsa, hsb] at h
  have : sa = sb := Option.some.inj h
  rw [← hda, ← hdb, this]

/-- C18 at the values 40 and 14: their spellings differ. -/
theorem C18_english_injective_witness :
    (-(2 : Int) ^ 31 < 40 ∧ (40 : Int) < 2 ^ 31 ∧ -(2 : Int) ^ 31 < 14 ∧ (14 : Int) < 2 ^ 31)
      ∧ (spellEnglish 40 = spellEnglish 14 → (40 : Int) = 14)
      ∧ spellEnglish 40 = some "Forty " ∧ spellEnglish 14 = some "Fourteen " :=
  ⟨⟨by decide, by decide, by decide, by decide⟩,
    (C18_english_injective 40 14 (by decide) (by decide) (by decide) (by decide)).2.2,
    by decide!, by decide!⟩

end NumberSpeller
